import Mathlib

/-!
# PMG1 DFU blinky LED application (`main.c`)

A shallow embedding of `main` and `user_button_event_handler` as a small-step
machine.  Every statement of `main` is one step; one run of the interrupt
handler is one step (an interrupt service routine runs to completion with
respect to `main`).  Every external call and every access to the shared flag
`is_user_event_detected` is appended to a log, tagged with the context that
performed it, so that ordering and counting properties can be stated on the
log.
-/

namespace DfuBlinky

/-! ## Constants of `main.c` -/

/-- App ID of bootloader (line 24). -/
def BOOTLOADER_ID : Nat := 0

/-- LED toggle interval in milliseconds (line 27). -/
def LED_TOGGLE_INTERVAL_MS : Nat := 100

/-- User button interrupt priority (line 30). -/
def GPIO_INTERRUPT_PRIORITY : Nat := 3

/-- Symbols that `main.c` takes from the board support package and the PDL
headers (`cybsp.h`, `cy_pdl.h`); their values are not part of `main.c` and are
parameters here.  `cybsp_init` is the value that the call `cybsp_init()` returns
on this target. -/
structure Target where
  CY_RSLT_SUCCESS : Nat
  CYBSP_USER_BTN_IRQ : Nat
  CYBSP_USER_BTN_PORT : Nat
  CYBSP_USER_BTN_PIN : Nat
  CYBSP_USER_LED_PORT : Nat
  CYBSP_USER_LED_PIN : Nat
  cybsp_init : Nat

/-- The two fields of `cy_stc_sysint_t` that `main.c` initialises. -/
structure cy_stc_sysint_t where
  intrSrc : Nat
  intrPriority : Nat
  deriving DecidableEq, Repr

/-- User button interrupt configuration (lines 46-50). -/
def user_button_intr_config (t : Target) : cy_stc_sysint_t :=
  { intrSrc := t.CYBSP_USER_BTN_IRQ, intrPriority := 3 }

/-- Address of an interrupt service routine; `main.c` defines exactly one. -/
inductive cy_israddress where
  | user_button_event_handler
  deriving DecidableEq, Repr

/-! ## Observable events -/

/-- Execution context that performs an event. -/
inductive Ctx where
  | main
  | isr
  deriving DecidableEq, Repr

/-- External calls made by `main.c`, and its accesses to the volatile flag
`is_user_event_detected` (`load v` reads the value `v`, `store v` writes `v`). -/
inductive Call where
  | cybsp_init
  | Cy_SysInt_Init (config : cy_stc_sysint_t) (userIsr : cy_israddress)
  | NVIC_ClearPendingIRQ (irqn : Nat)
  | NVIC_EnableIRQ (irqn : Nat)
  | __enable_irq
  | Cy_GPIO_Inv (port pin : Nat)
  | Cy_SysLib_Delay (milliseconds : Nat)
  | Cy_DFU_ExecuteApp (appId : Nat)
  | Cy_GPIO_ClearInterrupt (port pin : Nat)
  | load (v : Bool)
  | store (v : Bool)
  deriving DecidableEq, Repr

/-- A logged event: who did it and what was done. -/
abbrev Ev := Ctx × Call

/-! ## Machine state -/

/-- Control points of `main`, named after the line of `main.c` whose statement
is executed next.  `halted` and `bootloader` are the two ways `main` stops
executing: a failed assertion, and a handoff call that does not return. -/
inductive Pc where
  | L73
  | L74
  | L76
  | L80
  | L83
  | L84
  | L87
  | L92
  | L95
  | L98
  | L100
  | L101
  | halted
  | bootloader
  deriving DecidableEq, Repr

/-- State of the program: the control point of `main`, its local `result`, the
global flag, whether the button interrupt source has been enabled at the
interrupt controller, and the log of events so far (oldest first). -/
structure State where
  pc : Pc
  result : Nat
  is_user_event_detected : Bool
  irqEnabled : Bool
  log : List Ev
  deriving DecidableEq, Repr

/-- State at entry to `main`: the flag is initialised to `false` (line 43).
The local `result` is assigned at line 73 before it is read. -/
def init : State :=
  { pc := .L73, result := 0, is_user_event_detected := false, irqEnabled := false, log := [] }

/-- Append one event to the log. -/
def emit (c : Ctx) (e : Call) (s : State) : State :=
  { s with log := s.log ++ [(c, e)] }

/-- Modelled from the spec: the macro `CY_ASSERT` is defined in the PDL headers,
not in `main.c`.  Section 7 of the specification gives its behaviour on a failed
check as a deterministic halt; a check that holds continues at `next`. -/
def CY_ASSERT (x : Nat) (next : Pc) : Pc :=
  if x = 0 then .halted else next

/-! ## The two functions of `main.c` -/

/-- One run of `user_button_event_handler` (lines 116-123). -/
def user_button_event_handler (t : Target) (s : State) : State :=
  let s1 := emit .isr (.Cy_GPIO_ClearInterrupt t.CYBSP_USER_BTN_PORT t.CYBSP_USER_BTN_PIN) s
  let s2 := emit .isr (.NVIC_ClearPendingIRQ (user_button_intr_config t).intrSrc) s1
  { emit .isr (.store true) s2 with is_user_event_detected := true }

/-- One statement of `main` (lines 68-104).  `returns` says whether the call made
by the statement comes back to `main`; it matters only for `Cy_DFU_ExecuteApp`. -/
def mainStep (t : Target) (returns : Bool) (s : State) : State :=
  match s.pc with
  | .L73 => { emit .main .cybsp_init s with result := t.cybsp_init, pc := .L74 }
  | .L74 => { s with pc := if s.result ≠ t.CY_RSLT_SUCCESS then .L76 else .L80 }
  | .L76 => { s with pc := CY_ASSERT 0 .L80 }
  | .L80 =>
    { emit .main (.Cy_SysInt_Init (user_button_intr_config t) .user_button_event_handler) s
        with pc := .L83 }
  | .L83 =>
    { emit .main (.NVIC_ClearPendingIRQ (user_button_intr_config t).intrSrc) s with pc := .L84 }
  | .L84 =>
    { emit .main (.NVIC_EnableIRQ (user_button_intr_config t).intrSrc) s
        with irqEnabled := true, pc := .L87 }
  | .L87 => { emit .main .__enable_irq s with pc := .L92 }
  | .L92 =>
    { emit .main (.Cy_GPIO_Inv t.CYBSP_USER_LED_PORT t.CYBSP_USER_LED_PIN) s with pc := .L95 }
  | .L95 => { emit .main (.Cy_SysLib_Delay LED_TOGGLE_INTERVAL_MS) s with pc := .L98 }
  | .L98 =>
    { emit .main (.load s.is_user_event_detected) s
        with pc := if s.is_user_event_detected = true then .L100 else .L92 }
  | .L100 => { emit .main (.store false) s with is_user_event_detected := false, pc := .L101 }
  | .L101 =>
    { emit .main (.Cy_DFU_ExecuteApp BOOTLOADER_ID) s
        with pc := if returns then .L92 else .bootloader }
  | .halted => s
  | .bootloader => s

/-! ## Interleaving of `main` and the interrupt -/

/-- What happens next: `main` executes its next statement (and a call it makes
returns), or `main` makes the handoff call at line 101 and the call does not
return, or the button interrupt fires and the handler runs. -/
inductive Action where
  | main
  | noreturn
  | irq
  deriving DecidableEq, Repr

/-- One step of the machine.  An action that cannot happen in the current state
leaves it unchanged: `noreturn` is possible only at line 101, and the handler
can run only once line 84 has enabled the interrupt source and while the
application image is still executing. -/
def step (t : Target) (a : Action) (s : State) : State :=
  match a with
  | .main => mainStep t true s
  | .noreturn => if s.pc = .L101 then mainStep t false s else s
  | .irq =>
    if s.irqEnabled = true ∧ s.pc ≠ .bootloader then user_button_event_handler t s else s

/-- Execute a schedule of actions, first action first. -/
def run (t : Target) (acts : List Action) (s : State) : State :=
  acts.foldl (fun st a => step t a st) s

/-! ## Measures on the log -/

/-- Calls made in `main` context, in order. -/
def mainCalls (log : List Ev) : List Call :=
  (log.filter (fun e => e.1 = Ctx.main)).map Prod.snd

/-- Number of handoff calls in the log. -/
def handoffs (log : List Ev) : Nat :=
  log.countP (fun e => match e.2 with | .Cy_DFU_ExecuteApp _ => true | _ => false)

/-- Number of handler runs in the log (each run performs one `store true`). -/
def handlerRuns (log : List Ev) : Nat :=
  log.count (Ctx.isr, Call.store true)

/-- Number of loop iterations started (each starts with the LED inversion). -/
def iterationsStarted (t : Target) (log : List Ev) : Nat :=
  log.count (Ctx.main, Call.Cy_GPIO_Inv t.CYBSP_USER_LED_PORT t.CYBSP_USER_LED_PIN)

/-- Number of handler runs since the most recent read of the flag by the loop
(line 98), or since the start when the loop has not read it yet. -/
def runsSinceRead (log : List Ev) : Nat :=
  log.foldl (fun n e =>
    match e with
    | (Ctx.main, Call.load _) => 0
    | (Ctx.isr, Call.store true) => n + 1
    | _ => n) 0

/-- Number of handler runs since the most recent clear of the flag by the loop
(line 100), or since the start when the loop has not cleared it yet. -/
def runsSinceClear (log : List Ev) : Nat :=
  log.foldl (fun n e =>
    match e with
    | (Ctx.main, Call.store false) => 0
    | (Ctx.isr, Call.store true) => n + 1
    | _ => n) 0

/-- Calls to external functions: everything except accesses to the flag. -/
def externalCalls (cs : List Call) : List Call :=
  cs.filter (fun c => match c with | .load _ => false | .store _ => false | _ => true)

/-! ## Shapes of the call sequence of `main` -/

/-- Calls of `main` before the loop when `cybsp_init` succeeds (lines 73-87). -/
def startup (t : Target) : List Call :=
  [ .cybsp_init,
    .Cy_SysInt_Init (user_button_intr_config t) .user_button_event_handler,
    .NVIC_ClearPendingIRQ t.CYBSP_USER_BTN_IRQ,
    .NVIC_EnableIRQ t.CYBSP_USER_BTN_IRQ,
    .__enable_irq ]

/-- Calls of a loop iteration whose read of the flag returns `false`. -/
def iterQuiet (t : Target) : List Call :=
  [ .Cy_GPIO_Inv t.CYBSP_USER_LED_PORT t.CYBSP_USER_LED_PIN,
    .Cy_SysLib_Delay 100,
    .load false ]

/-- Calls of a loop iteration whose read of the flag returns `true`. -/
def iterHandoff (t : Target) : List Call :=
  [ .Cy_GPIO_Inv t.CYBSP_USER_LED_PORT t.CYBSP_USER_LED_PIN,
    .Cy_SysLib_Delay 100,
    .load true,
    .store false,
    .Cy_DFU_ExecuteApp 0 ]

/-- Calls that `main` has made before the current loop iteration began, as far
as they belong to the start-up code. -/
def startupDone (t : Target) : Pc → List Call
  | .L73 => []
  | .L74 => (startup t).take 1
  | .L76 => (startup t).take 1
  | .halted => (startup t).take 1
  | .L80 => (startup t).take 1
  | .L83 => (startup t).take 2
  | .L84 => (startup t).take 3
  | .L87 => (startup t).take 4
  | _ => startup t

/-- Calls that `main` has made in the loop iteration that is in progress. -/
def iterDone (t : Target) : Pc → List Call
  | .L95 => (iterHandoff t).take 1
  | .L98 => (iterHandoff t).take 2
  | .L100 => (iterHandoff t).take 3
  | .L101 => (iterHandoff t).take 4
  | _ => []

/-- Control points inside the `for (;;)` loop, and the exit from it by handoff. -/
def inLoop : Pc → Bool
  | .L92 | .L95 | .L98 | .L100 | .L101 | .bootloader => true
  | _ => false

/-- A sample target on which `cybsp_init` succeeds. -/
def sampleTarget : Target :=
  { CY_RSLT_SUCCESS := 0, CYBSP_USER_BTN_IRQ := 7, CYBSP_USER_BTN_PORT := 3,
    CYBSP_USER_BTN_PIN := 4, CYBSP_USER_LED_PORT := 5, CYBSP_USER_LED_PIN := 6,
    cybsp_init := 0 }

/-- A sample target on which `cybsp_init` fails. -/
def failingTarget : Target :=
  { sampleTarget with cybsp_init := 1 }

/-- The three events of one handler run, in order. -/
def handlerEvents (t : Target) : List Ev :=
  [ (Ctx.isr, Call.Cy_GPIO_ClearInterrupt t.CYBSP_USER_BTN_PORT t.CYBSP_USER_BTN_PIN),
    (Ctx.isr, Call.NVIC_ClearPendingIRQ t.CYBSP_USER_BTN_IRQ),
    (Ctx.isr, Call.store true) ]

/-- Tag a sequence of calls as made by `main`. -/
def asMain (cs : List Call) : List Ev :=
  cs.map (fun c => (Ctx.main, c))

/-- Schedule that runs the start-up code of `main` up to the loop (lines 73-87). -/
def toLoop : List Action :=
  List.replicate 6 Action.main

/-- Schedule with a button press during the delay and a second press between the
read of the flag (line 98) and its clear (line 100); it ends right after the
clear. -/
def raceSchedule : List Action :=
  toLoop ++ [.main, .irq, .main, .main, .irq, .main]

/-- Schedule with a button press during the delay and a second press between the
clear of the flag (line 100) and the handoff call (line 101); the call returns. -/
def pressBeforeCall : List Action :=
  toLoop ++ [.main, .irq, .main, .main, .main, .irq, .main]

/-- One more loop iteration, five statements of `main`, with no interrupt. -/
def nextIteration : List Action :=
  List.replicate 5 Action.main

/-! ## Invariants -/

/-- The calls of `main` since `base` are whole loop iterations followed by the
part of the current iteration that has been executed. -/
def LoopShape (t : Target) (base : List Call) (s : State) : Prop :=
  inLoop s.pc = true ∧
  ∃ full : List (List Call),
    (∀ it ∈ full, it = iterQuiet t ∨ it = iterHandoff t) ∧
    mainCalls s.log = base ++ full.flatten ++ iterDone t s.pc

/-- Shape of the calls of `main` since entry: the start-up calls made so far,
then, once in the loop, whole iterations and the current one. -/
def Shape (t : Target) (s : State) : Prop :=
  (inLoop s.pc = true ∧ LoopShape t (startup t) s) ∨
  (inLoop s.pc = false ∧ mainCalls s.log = startupDone t s.pc)


/-- Number of clears of the flag by the loop (line 100) in the log. -/
def clears (log : List Ev) : Nat :=
  log.count (Ctx.main, Call.store false)

/-- Bookkeeping between handler runs, clears, handoff calls and iterations. -/
def Counts (t : Target) (s : State) : Prop :=
  clears s.log + (if s.is_user_event_detected = true then 1 else 0) ≤ handlerRuns s.log ∧
  handoffs s.log + (if s.pc = Pc.L101 then 1 else 0) = clears s.log ∧
  handoffs s.log + (if s.pc = Pc.L95 ∨ s.pc = Pc.L98 ∨ s.pc = Pc.L100 ∨ s.pc = Pc.L101
      then 1 else 0) ≤ iterationsStarted t s.log ∧
  (s.pc = Pc.L100 → s.is_user_event_detected = true)

/-- Every handoff call in the log is made by `main` with argument `0`. -/
def ArgsOk (log : List Ev) : Prop :=
  ∀ e ∈ log, ∀ n, e.2 = Call.Cy_DFU_ExecuteApp n → e = (Ctx.main, Call.Cy_DFU_ExecuteApp 0)

/-- Every two clears in the log have a handler run between them; when the flag
is set, every clear in the log has a handler run after it. -/
def GapsL (flag : Bool) (log : List Ev) : Prop :=
  (∀ a m c, log = a ++ (Ctx.main, Call.store false) :: (m ++ (Ctx.main, Call.store false) :: c) →
      (Ctx.isr, Call.store true) ∈ m) ∧
  (flag = true → ∀ a m, log = a ++ (Ctx.main, Call.store false) :: m →
      (Ctx.isr, Call.store true) ∈ m)

/-- The gap property of the log together with the fact that the loop is about to
clear the flag only while the flag is set. -/
def Gaps (s : State) : Prop :=
  GapsL s.is_user_event_detected s.log ∧ (s.pc = Pc.L100 → s.is_user_event_detected = true)

/-- The flag is clear and `main` is not between its read of a set flag and the
handoff call. -/
def Quiet (s : State) : Prop :=
  s.is_user_event_detected = false ∧ s.pc ≠ Pc.L100 ∧ s.pc ≠ Pc.L101

/-- Number of statements that `main` has executed on the path from entry to the
halt of a failed start-up (lines 73, 74, 76). -/
def haltRank : Pc → Nat
  | .L73 => 0
  | .L74 => 1
  | .L76 => 2
  | _ => 3

/-- States on the path from entry to the halt when `cybsp_init` fails. -/
def Failing (t : Target) (s : State) : Prop :=
  s.irqEnabled = false ∧ s.is_user_event_detected = false ∧
  ((s.pc = Pc.L73 ∧ s.log = []) ∨
   (s.pc = Pc.L74 ∧ s.result = t.cybsp_init ∧ s.log = [(Ctx.main, Call.cybsp_init)]) ∨
   ((s.pc = Pc.L76 ∨ s.pc = Pc.halted) ∧ s.log = [(Ctx.main, Call.cybsp_init)]))

/-- Schedule of one loop iteration in which the button interrupt fires `a` times
between the LED toggle and the delay call and `b` times between the delay call
and the read of the flag, and not afterwards; `last` is the handoff call, which
either returns (`Action.main`) or does not (`Action.noreturn`). -/
def pressedIteration (a b : Nat) (last : Action) : List Action :=
  [Action.main] ++ List.replicate a Action.irq ++ [Action.main] ++ List.replicate b Action.irq ++
    [Action.main, Action.main, last]

/-- State at the head of the loop after a successful start-up on the sample
target. -/
def loopEntry : State :=
  run sampleTarget toLoop init

/-- State on the sample target in which `main` has read the flag as true and is
about to clear it (line 100). -/
def beforeClear : State :=
  run sampleTarget (toLoop ++ [.main, .irq, .main, .main]) init

/-- The log of `pressBeforeCall` on the sample target up to, and excluding, the
first handoff call. -/
def untilFirstCall : List Ev :=
  asMain (startup sampleTarget) ++
    asMain [Call.Cy_GPIO_Inv 5 6] ++ handlerEvents sampleTarget ++
    asMain [Call.Cy_SysLib_Delay 100, Call.load true, Call.store false] ++
    handlerEvents sampleTarget

/-- The events between the two handoff calls of `pressBeforeCall ++ nextIteration`
on the sample target. -/
def betweenCalls : List Ev :=
  asMain [Call.Cy_GPIO_Inv 5 6, Call.Cy_SysLib_Delay 100, Call.load true, Call.store false]

/-- Once line 84 has been executed the interrupt source is enabled. -/
def EnabledAfter84 (s : State) : Prop :=
  (s.pc = Pc.L87 ∨ inLoop s.pc = true) → s.irqEnabled = true
/-- Schedule from the head of the loop to the read of the flag: the toggle, `a`
interrupts, the delay, `b` interrupts, the read. -/
def untilRead (a b : Nat) : List Action :=
  [Action.main] ++ List.replicate a Action.irq ++ [Action.main] ++ List.replicate b Action.irq ++
    [Action.main]

/-- Schedule of the rest of a handoff iteration: `c` interrupts, the clear, `d`
interrupts, the handoff call (`last`). -/
def clearAndCall (c d : Nat) (last : Action) : List Action :=
  List.replicate c Action.irq ++ [Action.main] ++ List.replicate d Action.irq ++ [last]

/-- Control points at which `main` has a loop statement to execute. -/
def Live (s : State) : Prop :=
  s.pc = Pc.L92 ∨ s.pc = Pc.L95 ∨ s.pc = Pc.L98 ∨ s.pc = Pc.L100 ∨ s.pc = Pc.L101

/-! ## Running schedules -/

theorem run_nil (t : Target) (s : State) : run t [] s = s := rfl

theorem run_cons (t : Target) (a : Action) (acts : List Action) (s : State) :
    run t (a :: acts) s = run t acts (step t a s) := rfl

theorem run_append (t : Target) (xs ys : List Action) (s : State) :
    run t (xs ++ ys) s = run t ys (run t xs s) := by
  simp [run, List.foldl_append]

/-- Invariant principle: a property preserved by every step holds after every
schedule that starts in a state where it holds. -/
theorem run_invariant (t : Target) (P : State → Prop)
    (hstep : ∀ a s, P s → P (step t a s)) :
    ∀ (acts : List Action) (s : State), P s → P (run t acts s) := by
  intro acts
  induction acts with
  | nil => intro s h; exact h
  | cons a acts ih => intro s h; exact ih _ (hstep a s h)

/-! ## Shape of the call sequence of `main` -/

theorem mainCalls_snoc_main (log : List Ev) (c : Call) :
    mainCalls (log ++ [(Ctx.main, c)]) = mainCalls log ++ [c] := by
  simp [mainCalls, List.filter_append]

theorem mainCalls_snoc_isr (log : List Ev) (c : Call) :
    mainCalls (log ++ [(Ctx.isr, c)]) = mainCalls log := by
  simp [mainCalls, List.filter_append]

theorem mainCalls_handler (t : Target) (s : State) :
    mainCalls (user_button_event_handler t s).log = mainCalls s.log := by
  simp [user_button_event_handler, emit, mainCalls, List.filter_append]

theorem loopShape_mainStep (t : Target) (base : List Call) (r : Bool) (s : State)
    (h : LoopShape t base s) : LoopShape t base (mainStep t r s) := by
  obtain ⟨hl, full, hfull, hlog⟩ := h
  unfold mainStep
  split <;> rename_i hpc <;> simp only [hpc, inLoop] at hl <;> try contradiction
  · -- line 92
    refine ⟨rfl, full, hfull, ?_⟩
    simp [emit, mainCalls_snoc_main, hlog, hpc, iterDone, iterHandoff]
  · -- line 95
    refine ⟨rfl, full, hfull, ?_⟩
    simp [emit, mainCalls_snoc_main, hlog, hpc, iterDone, iterHandoff, LED_TOGGLE_INTERVAL_MS]
  · -- line 98
    by_cases hf : s.is_user_event_detected = true
    · refine ⟨by simp [hf, inLoop], full, hfull, ?_⟩
      simp [emit, mainCalls_snoc_main, hlog, hpc, iterDone, iterHandoff, hf]
    · refine ⟨by simp [hf, inLoop], full ++ [iterQuiet t], ?_, ?_⟩
      · intro it hit
        rcases List.mem_append.1 hit with h1 | h1
        · exact hfull it h1
        · left; simpa using h1
      · simp at hf
        simp [emit, mainCalls_snoc_main, hlog, hpc, iterDone, iterHandoff, iterQuiet, hf]
  · -- line 100
    refine ⟨rfl, full, hfull, ?_⟩
    simp [emit, mainCalls_snoc_main, hlog, hpc, iterDone, iterHandoff]
  · -- line 101
    refine ⟨by cases r <;> rfl, full ++ [iterHandoff t], ?_, ?_⟩
    · intro it hit
      rcases List.mem_append.1 hit with h1 | h1
      · exact hfull it h1
      · right; simpa using h1
    · cases r <;>
        simp [emit, mainCalls_snoc_main, hlog, hpc, iterDone, iterHandoff, BOOTLOADER_ID]
  · -- handoff done
    exact ⟨by simp [hpc, inLoop], full, hfull, hlog⟩

theorem handler_pc (t : Target) (s : State) : (user_button_event_handler t s).pc = s.pc := rfl

theorem loopShape_step (t : Target) (base : List Call) (a : Action) (s : State)
    (h : LoopShape t base s) : LoopShape t base (step t a s) := by
  cases a
  · exact loopShape_mainStep t base true s h
  · simp only [step]
    split
    · exact loopShape_mainStep t base false s h
    · exact h
  · simp only [step]
    split
    · obtain ⟨hl, full, hfull, hlog⟩ := h
      exact ⟨by simpa [handler_pc] using hl, full, hfull, by
        rw [mainCalls_handler, handler_pc]; exact hlog⟩
    · exact h

theorem shape_step (t : Target) (a : Action) (s : State) (h : Shape t s) :
    Shape t (step t a s) := by
  rcases h with ⟨_, h⟩ | ⟨hl, hlog⟩
  · have h2 := loopShape_step t (startup t) a s h
    exact Or.inl ⟨h2.1, h2⟩
  · cases a
    · simp only [step]
      unfold mainStep
      split <;> rename_i hpc <;> simp only [hpc, inLoop] at hl <;> try contradiction
      · right
        simp [emit, mainCalls_snoc_main, hlog, hpc, startupDone, startup, inLoop]
      · right
        by_cases hr : s.result = t.CY_RSLT_SUCCESS <;>
          simp [hlog, hpc, startupDone, startup, inLoop, hr]
      · right
        simp [hlog, hpc, startupDone, startup, inLoop, CY_ASSERT]
      · right
        simp [emit, mainCalls_snoc_main, hlog, hpc, startupDone, startup, inLoop]
      · right
        simp [emit, mainCalls_snoc_main, hlog, hpc, startupDone, startup, inLoop,
          user_button_intr_config]
      · right
        simp [emit, mainCalls_snoc_main, hlog, hpc, startupDone, startup, inLoop,
          user_button_intr_config]
      · left
        refine ⟨rfl, rfl, [], by simp, ?_⟩
        simp [emit, mainCalls_snoc_main, hlog, hpc, startupDone, startup, iterDone]
      · right
        exact ⟨by simp [hpc, inLoop], by simpa [hpc] using hlog⟩
    · have hpc : s.pc ≠ Pc.L101 := by
        intro h1; simp [h1, inLoop] at hl
      simp only [step, hpc, if_false]
      exact Or.inr ⟨hl, hlog⟩
    · simp only [step]
      split
      · right
        exact ⟨by simpa [handler_pc] using hl, by rw [mainCalls_handler, handler_pc]; exact hlog⟩
      · exact Or.inr ⟨hl, hlog⟩

theorem shape_init (t : Target) : Shape t init :=
  Or.inr ⟨rfl, rfl⟩

theorem shape_run (t : Target) (acts : List Action) : Shape t (run t acts init) :=
  run_invariant t (Shape t) (shape_step t) acts init (shape_init t)

/-! ## The flag and the handler runs since the last clear -/

theorem runsSinceClear_snoc (log : List Ev) (e : Ev) :
    runsSinceClear (log ++ [e]) =
      (match e with
        | (Ctx.main, Call.store false) => 0
        | (Ctx.isr, Call.store true) => runsSinceClear log + 1
        | _ => runsSinceClear log) := by
  simp [runsSinceClear, List.foldl_append]

theorem flag_iff_step (t : Target) (a : Action) (s : State)
    (h : s.is_user_event_detected = true ↔ 0 < runsSinceClear s.log) :
    ((step t a s).is_user_event_detected = true ↔ 0 < runsSinceClear (step t a s).log) := by
  cases a
  · simp only [step]
    unfold mainStep
    split <;> simp_all [emit, runsSinceClear_snoc]
  · simp only [step]
    split
    · unfold mainStep
      split <;> simp_all [emit, runsSinceClear_snoc]
    · exact h
  · simp only [step]
    split
    · simp [user_button_event_handler, emit, runsSinceClear, List.foldl_append]
    · exact h

theorem flag_iff_run (t : Target) (acts : List Action) :
    ((run t acts init).is_user_event_detected = true ↔
      0 < runsSinceClear (run t acts init).log) :=
  run_invariant t
    (fun s => s.is_user_event_detected = true ↔ 0 < runsSinceClear s.log)
    (flag_iff_step t) acts init (by simp [init, runsSinceClear])

/-! ## Counting handler runs, clears, handoff calls and iterations -/

theorem handoffs_snoc (log : List Ev) (e : Ev) :
    handoffs (log ++ [e]) =
      handoffs log + (match e.2 with | .Cy_DFU_ExecuteApp _ => 1 | _ => 0) := by
  simp only [handoffs, List.countP_append, List.countP_cons, List.countP_nil]
  cases h : e.2 <;> simp

theorem handoffs_handler (t : Target) (s : State) :
    handoffs (user_button_event_handler t s).log = handoffs s.log := by
  simp [user_button_event_handler, emit, handoffs, List.countP_append, List.countP_cons]

theorem counts_mainStep (t : Target) (r : Bool) (s : State) (h : Counts t s) :
    Counts t (mainStep t r s) := by
  obtain ⟨pc, result, flag, en, log⟩ := s
  unfold Counts at h ⊢
  unfold mainStep
  cases pc <;> cases flag <;>
    simp [emit, clears, handlerRuns, iterationsStarted, handoffs_snoc,
      List.count_append, List.count_cons, CY_ASSERT, BOOTLOADER_ID] at h ⊢ <;>
    (try split_ifs) <;> (try simp_all) <;> (try omega)

theorem counts_step (t : Target) (a : Action) (s : State) (h : Counts t s) :
    Counts t (step t a s) := by
  cases a
  · exact counts_mainStep t true s h
  · simp only [step]
    split
    · exact counts_mainStep t false s h
    · exact h
  · simp only [step]
    split
    · obtain ⟨pc, result, flag, en, log⟩ := s
      unfold Counts at h ⊢
      rw [handoffs_handler]
      cases flag <;>
        simp [user_button_event_handler, emit, clears, handlerRuns, iterationsStarted,
          List.count_append, List.count_cons] at h ⊢ <;>
        (try split_ifs at h ⊢) <;> (try simp at h ⊢) <;> (try omega)
    · exact h

theorem counts_run (t : Target) (acts : List Action) : Counts t (run t acts init) :=
  run_invariant t (Counts t) (counts_step t) acts init
    (by simp [Counts, init, clears, handlerRuns, handoffs, iterationsStarted])

theorem argsOk_snoc (log : List Ev) (e : Ev) (h : ArgsOk log)
    (he : ∀ n, e.2 = Call.Cy_DFU_ExecuteApp n → e = (Ctx.main, Call.Cy_DFU_ExecuteApp 0)) :
    ArgsOk (log ++ [e]) := by
  intro x hx n hn
  rcases List.mem_append.1 hx with h1 | h1
  · exact h x h1 n hn
  · have : x = e := by simpa using h1
    subst this
    exact he n hn

theorem argsOk_mainStep (t : Target) (r : Bool) (s : State) (h : ArgsOk s.log) :
    ArgsOk (mainStep t r s).log := by
  unfold mainStep
  split <;> first
    | exact h
    | exact argsOk_snoc _ _ h (by simp [BOOTLOADER_ID])

theorem argsOk_step (t : Target) (a : Action) (s : State) (h : ArgsOk s.log) :
    ArgsOk (step t a s).log := by
  cases a
  · exact argsOk_mainStep t true s h
  · simp only [step]
    split
    · exact argsOk_mainStep t false s h
    · exact h
  · simp only [step]
    split
    · exact argsOk_snoc _ _ (argsOk_snoc _ _ (argsOk_snoc _ _ h (by simp)) (by simp)) (by simp)
    · exact h

theorem argsOk_run (t : Target) (acts : List Action) : ArgsOk (run t acts init).log :=
  run_invariant t (fun s => ArgsOk s.log) (argsOk_step t) acts init
    (by intro e he; simp [init] at he)

/-! ## A handler run between any two clears -/

theorem snoc_split {α : Type} (l a m : List α) (e x : α) (h : l ++ [e] = a ++ x :: m) :
    (m = [] ∧ x = e ∧ l = a) ∨ ∃ m2, m = m2 ++ [e] ∧ l = a ++ x :: m2 := by
  rcases List.eq_nil_or_concat m with hm | ⟨m2, b, hm⟩
  · subst hm
    have := List.append_inj' h (by simp)
    left
    exact ⟨rfl, by simpa using this.2.symm, this.1⟩
  · subst hm
    have h2 : l ++ [e] = (a ++ x :: m2) ++ [b] := by simpa using h
    have := List.append_inj' h2 (by simp)
    right
    refine ⟨m2, ?_, this.1⟩
    have hb : e = b := by simpa using this.2
    rw [hb]
    simp

theorem gapsL_snoc_other (f : Bool) (log : List Ev) (e : Ev) (h : GapsL f log)
    (he : e ≠ (Ctx.main, Call.store false)) : GapsL f (log ++ [e]) := by
  constructor
  · intro a m c hs
    have hs2 : log ++ [e] = (a ++ (Ctx.main, Call.store false) :: m) ++
        (Ctx.main, Call.store false) :: c := by simpa using hs
    rcases snoc_split _ _ _ _ _ hs2 with ⟨_, hx, _⟩ | ⟨c2, _, hl⟩
    · exact absurd hx.symm he
    · exact h.1 a m c2 (by simpa using hl)
  · intro hf a m hs
    rcases snoc_split _ _ _ _ _ hs with ⟨_, hx, _⟩ | ⟨m2, hm, hl⟩
    · exact absurd hx.symm he
    · rw [hm]
      exact List.mem_append_left _ (h.2 hf a m2 hl)

theorem gapsL_snoc_run (f : Bool) (log : List Ev) (h : GapsL f log) :
    GapsL true (log ++ [(Ctx.isr, Call.store true)]) := by
  constructor
  · exact (gapsL_snoc_other f log _ h (by simp)).1
  · intro _ a m hs
    rcases snoc_split _ _ _ _ _ hs with ⟨_, hx, _⟩ | ⟨m2, hm, _⟩
    · simp at hx
    · rw [hm]
      simp

theorem gapsL_snoc_clear (log : List Ev) (h : GapsL true log) :
    GapsL false (log ++ [(Ctx.main, Call.store false)]) := by
  constructor
  · intro a m c hs
    have hs2 : log ++ [(Ctx.main, Call.store false)] =
        (a ++ (Ctx.main, Call.store false) :: m) ++ (Ctx.main, Call.store false) :: c := by
      simpa using hs
    rcases snoc_split _ _ _ _ _ hs2 with ⟨_, _, hl⟩ | ⟨c2, _, hl⟩
    · exact h.2 rfl a m hl
    · exact h.1 a m c2 (by simpa using hl)
  · intro hf
    simp at hf

theorem gaps_mainStep (t : Target) (r : Bool) (s : State) (h : Gaps s) :
    Gaps (mainStep t r s) := by
  obtain ⟨hg, h100⟩ := h
  unfold mainStep
  split <;> rename_i hpc
  · exact ⟨gapsL_snoc_other _ _ _ hg (by simp), by simp [emit]⟩
  · refine ⟨hg, ?_⟩
    by_cases hr : s.result = t.CY_RSLT_SUCCESS <;> simp [hr]
  · exact ⟨hg, by simp [CY_ASSERT]⟩
  · exact ⟨gapsL_snoc_other _ _ _ hg (by simp), by simp [emit]⟩
  · exact ⟨gapsL_snoc_other _ _ _ hg (by simp), by simp [emit]⟩
  · exact ⟨gapsL_snoc_other _ _ _ hg (by simp), by simp [emit]⟩
  · exact ⟨gapsL_snoc_other _ _ _ hg (by simp), by simp [emit]⟩
  · exact ⟨gapsL_snoc_other _ _ _ hg (by simp), by simp [emit]⟩
  · exact ⟨gapsL_snoc_other _ _ _ hg (by simp), by simp [emit]⟩
  · refine ⟨gapsL_snoc_other _ _ _ hg (by simp), ?_⟩
    by_cases hf : s.is_user_event_detected = true <;> simp [emit, hf]
  · have hf := h100 hpc
    rw [hf] at hg
    exact ⟨gapsL_snoc_clear _ hg, by simp⟩
  · refine ⟨gapsL_snoc_other _ _ _ hg (by simp), ?_⟩
    cases r <;> simp
  · exact ⟨hg, h100⟩
  · exact ⟨hg, h100⟩

theorem gaps_step (t : Target) (a : Action) (s : State) (h : Gaps s) :
    Gaps (step t a s) := by
  cases a
  · exact gaps_mainStep t true s h
  · simp only [step]
    split
    · exact gaps_mainStep t false s h
    · exact h
  · simp only [step]
    split
    · refine ⟨?_, fun _ => rfl⟩
      exact gapsL_snoc_run _ _
        (gapsL_snoc_other _ _ _ (gapsL_snoc_other _ _ _ h.1 (by simp)) (by simp))
    · exact h

theorem gaps_run (t : Target) (acts : List Action) : Gaps (run t acts init) :=
  run_invariant t Gaps (gaps_step t) acts init
    ⟨⟨by intro a m c h; simp [init] at h, by intro h; simp [init] at h⟩,
      by intro h; simp [init] at h⟩

/-! ## Handler runs -/

theorem handler_eq (t : Target) (s : State) :
    user_button_event_handler t s =
      { s with is_user_event_detected := true, log := s.log ++ handlerEvents t } := by
  simp [user_button_event_handler, emit, handlerEvents, user_button_intr_config]

theorem step_irq_enabled (t : Target) (s : State) (hen : s.irqEnabled = true)
    (hpc : s.pc ≠ Pc.bootloader) :
    step t Action.irq s =
      { s with is_user_event_detected := true, log := s.log ++ handlerEvents t } := by
  simp [step, hen, hpc, handler_eq]

theorem run_irq_replicate (t : Target) (n : Nat) (s : State) (hen : s.irqEnabled = true)
    (hpc : s.pc ≠ Pc.bootloader) :
    run t (List.replicate n Action.irq) s =
      { s with is_user_event_detected := s.is_user_event_detected || decide (0 < n),
               log := s.log ++ (List.replicate n (handlerEvents t)).flatten } := by
  induction n generalizing s with
  | zero => simp [run]
  | succ n ih =>
    have h2 := ih { s with is_user_event_detected := true, log := s.log ++ handlerEvents t }
      hen hpc
    rw [List.replicate_succ, run_cons, step_irq_enabled t s hen hpc, h2]
    simp [List.replicate_succ]

theorem handoffs_append (xs ys : List Ev) : handoffs (xs ++ ys) = handoffs xs + handoffs ys := by
  simp [handoffs, List.countP_append]

theorem handlerRuns_append (xs ys : List Ev) :
    handlerRuns (xs ++ ys) = handlerRuns xs + handlerRuns ys := by
  simp [handlerRuns, List.count_append]

theorem mainCalls_append (xs ys : List Ev) :
    mainCalls (xs ++ ys) = mainCalls xs ++ mainCalls ys := by
  simp [mainCalls, List.filter_append]

theorem handoffs_handlerEvents (t : Target) (n : Nat) :
    handoffs (List.replicate n (handlerEvents t)).flatten = 0 := by
  induction n with
  | zero => rfl
  | succ n ih =>
    rw [List.replicate_succ, List.flatten_cons, handoffs_append, ih]
    simp [handoffs, handlerEvents]

theorem handlerRuns_handlerEvents (t : Target) (n : Nat) :
    handlerRuns (List.replicate n (handlerEvents t)).flatten = n := by
  induction n with
  | zero => rfl
  | succ n ih =>
    rw [List.replicate_succ, List.flatten_cons, handlerRuns_append, ih]
    simp [handlerRuns, handlerEvents, List.count_cons]
    omega

theorem mainCalls_handlerEvents (t : Target) (n : Nat) :
    mainCalls (List.replicate n (handlerEvents t)).flatten = [] := by
  induction n with
  | zero => rfl
  | succ n ih =>
    rw [List.replicate_succ, List.flatten_cons, mainCalls_append, ih]
    simp [mainCalls, handlerEvents]

theorem mainCalls_asMain (cs : List Call) : mainCalls (asMain cs) = cs := by
  induction cs with
  | nil => rfl
  | cons c cs ih =>
    simp only [mainCalls, asMain] at ih ⊢
    simp [ih]

/-! ## Execution without button presses -/

theorem quiet_step (t : Target) (a : Action) (s : State) (ha : a ≠ Action.irq) (h : Quiet s) :
    Quiet (step t a s) ∧ handoffs (step t a s).log = handoffs s.log := by
  obtain ⟨pc, result, flag, en, log⟩ := s
  obtain ⟨hf, h1, h2⟩ := h
  simp only at hf h1 h2
  subst hf
  cases a
  · cases pc <;> simp [step, mainStep, Quiet, emit, handoffs_snoc, CY_ASSERT] at h1 h2 ⊢
    split_ifs <;> simp
  · simp [step, h2, Quiet, h1]
  · exact absurd rfl ha

theorem quiet_run (t : Target) (acts : List Action) (hno : Action.irq ∉ acts) (s : State)
    (h : Quiet s) :
    Quiet (run t acts s) ∧ handoffs (run t acts s).log = handoffs s.log := by
  induction acts generalizing s with
  | nil => exact ⟨h, rfl⟩
  | cons a acts ih =>
    have ha : a ≠ Action.irq := by
      intro h1; exact hno (by simp [h1])
    have hrest : Action.irq ∉ acts := by
      intro h1; exact hno (List.mem_cons_of_mem _ h1)
    obtain ⟨hq, hh⟩ := quiet_step t a s ha h
    obtain ⟨hq2, hh2⟩ := ih hrest _ hq
    exact ⟨hq2, by rw [run_cons, hh2, hh]⟩

theorem run_quiet_iteration (t : Target) (s : State) (hpc : s.pc = Pc.L92)
    (hf : s.is_user_event_detected = false) :
    run t [Action.main, Action.main, Action.main] s =
      { s with log := s.log ++ asMain (iterQuiet t) } := by
  obtain ⟨pc, result, flag, en, log⟩ := s
  simp only at hpc hf
  subst hpc hf
  simp [run, step, mainStep, emit, asMain, iterQuiet, LED_TOGGLE_INTERVAL_MS]

theorem run_quiet_iterations (t : Target) (k : Nat) (s : State) (hpc : s.pc = Pc.L92)
    (hf : s.is_user_event_detected = false) :
    run t (List.replicate (3 * k) Action.main) s =
      { s with log := s.log ++ asMain (List.replicate k (iterQuiet t)).flatten } := by
  induction k generalizing s with
  | zero => simp [run, asMain]
  | succ k ih =>
    have h3 : List.replicate (3 * (k + 1)) Action.main =
        [Action.main, Action.main, Action.main] ++ List.replicate (3 * k) Action.main := by
      rw [show 3 * (k + 1) = 3 + 3 * k by ring, List.replicate_add]
      rfl
    have h2 := ih { s with log := s.log ++ asMain (iterQuiet t) } hpc hf
    rw [h3, run_append, run_quiet_iteration t s hpc hf, h2]
    simp [List.replicate_succ, asMain]

theorem run_toLoop (t : Target) (hok : t.cybsp_init = t.CY_RSLT_SUCCESS) :
    run t toLoop init =
      { pc := Pc.L92, result := t.cybsp_init, is_user_event_detected := false,
        irqEnabled := true, log := asMain (startup t) } := by
  simp [run, toLoop, List.replicate, init, step, mainStep, emit, hok, asMain, startup,
    user_button_intr_config]

/-! ## Failed start-up -/

theorem failing_step (t : Target) (hfail : t.cybsp_init ≠ t.CY_RSLT_SUCCESS) (a : Action)
    (s : State) (h : Failing t s) :
    Failing t (step t a s) ∧
      haltRank (step t a s).pc =
        min 3 (haltRank s.pc + (if a = Action.main then 1 else 0)) := by
  obtain ⟨pc, result, flag, en, log⟩ := s
  obtain ⟨hen, hf, hpc⟩ := h
  simp only at hen hf hpc
  subst hen hf
  rcases hpc with ⟨h1, h2⟩ | ⟨h1, h2, h3⟩ | ⟨h1 | h1, h2⟩ <;> subst h1 <;> subst h2 <;>
    cases a <;> simp_all [step, mainStep, Failing, emit, haltRank, CY_ASSERT]

theorem failing_run (t : Target) (hfail : t.cybsp_init ≠ t.CY_RSLT_SUCCESS)
    (acts : List Action) (s : State) (h : Failing t s) :
    Failing t (run t acts s) ∧
      haltRank (run t acts s).pc = min 3 (haltRank s.pc + acts.count Action.main) := by
  induction acts generalizing s with
  | nil =>
    refine ⟨h, ?_⟩
    obtain ⟨_, _, ⟨h1, _⟩ | ⟨h1, _⟩ | ⟨h1 | h1, _⟩⟩ := h <;> simp [run, h1, haltRank]
  | cons a acts ih =>
    obtain ⟨hs, hr⟩ := failing_step t hfail a s h
    obtain ⟨hs2, hr2⟩ := ih _ hs
    refine ⟨hs2, ?_⟩
    rw [run_cons, hr2, hr]
    cases a <;> simp [List.count_cons] <;> omega

theorem failing_init (t : Target) : Failing t init :=
  ⟨rfl, rfl, Or.inl ⟨rfl, rfl⟩⟩

theorem haltRank_three (pc : Pc) (h : haltRank pc = 3) (h2 : pc = Pc.L73 ∨ pc = Pc.L74 ∨
    pc = Pc.L76 ∨ pc = Pc.halted) : pc = Pc.halted := by
  rcases h2 with h2 | h2 | h2 | h2 <;> subst h2 <;> simp [haltRank] at h ⊢

/-! ## Progress of the loop under arbitrary interrupts -/

theorem run_irq_disabled (t : Target) (n : Nat) (s : State)
    (h : ¬ (s.irqEnabled = true ∧ s.pc ≠ Pc.bootloader)) :
    run t (List.replicate n Action.irq) s = s := by
  induction n with
  | zero => rfl
  | succ n ih =>
    rw [List.replicate_succ, run_cons]
    have : step t Action.irq s = s := by simp only [step, h, if_false]
    rw [this, ih]

theorem run_irq_general (t : Target) (n : Nat) (s : State) :
    run t (List.replicate n Action.irq) s =
      { s with
        is_user_event_detected :=
          s.is_user_event_detected ||
            (s.irqEnabled && decide (s.pc ≠ Pc.bootloader) && decide (0 < n))
        log := s.log ++
          (if s.irqEnabled = true ∧ s.pc ≠ Pc.bootloader
            then (List.replicate n (handlerEvents t)).flatten else []) } := by
  by_cases h : s.irqEnabled = true ∧ s.pc ≠ Pc.bootloader
  · rw [run_irq_replicate t n s h.1 h.2]
    simp [h.1, h.2]
  · rw [run_irq_disabled t n s h]
    obtain ⟨pc, result, flag, en, log⟩ := s
    simp only [not_and_or] at h
    rcases h with h | h
    · simp at h; simp [h]
    · simp at h; simp [h]

theorem mainCalls_nil : mainCalls [] = [] := rfl

theorem mainCalls_cons_main (c : Call) (log : List Ev) :
    mainCalls ((Ctx.main, c) :: log) = c :: mainCalls log := by
  simp [mainCalls]

theorem mainCalls_presses (t : Target) (n : Nat) (c : Prop) [Decidable c] :
    mainCalls (if c then (List.replicate n (handlerEvents t)).flatten else []) = [] := by
  split
  · exact mainCalls_handlerEvents t n
  · rfl

theorem live_step (t : Target) (a : Action) (s : State) (ha : a ≠ Action.noreturn)
    (h : Live s) :
    Live (step t a s) ∧
      (mainCalls (step t a s).log).length =
        (mainCalls s.log).length + (if a = Action.main then 1 else 0) := by
  obtain ⟨pc, result, flag, en, log⟩ := s
  unfold Live at h ⊢
  simp only at h
  cases a
  · rcases h with h | h | h | h | h <;> subst h <;>
      simp [step, mainStep, emit, mainCalls_snoc_main]
    cases flag <;> simp
  · exact absurd rfl ha
  · simp only [step]
    split
    · rw [mainCalls_handler]
      exact ⟨h, by simp⟩
    · exact ⟨h, by simp⟩

theorem live_run (t : Target) (acts : List Action) (hret : Action.noreturn ∉ acts) (s : State)
    (h : Live s) :
    Live (run t acts s) ∧
      (mainCalls (run t acts s).log).length =
        (mainCalls s.log).length + acts.count Action.main := by
  induction acts generalizing s with
  | nil => exact ⟨h, by simp [run]⟩
  | cons a acts ih =>
    have ha : a ≠ Action.noreturn := by
      intro h1; exact hret (by simp [h1])
    have hrest : Action.noreturn ∉ acts := by
      intro h1; exact hret (List.mem_cons_of_mem _ h1)
    obtain ⟨h1, h2⟩ := live_step t a s ha h
    obtain ⟨h3, h4⟩ := ih hrest _ h1
    refine ⟨h3, ?_⟩
    rw [run_cons, h4, h2]
    cases a <;> simp [List.count_cons]
    all_goals omega

theorem run_untilRead (t : Target) (s : State) (a b : Nat) (hpc : s.pc = Pc.L92) :
    (run t (untilRead a b) s).pc =
      (if (s.is_user_event_detected || (s.irqEnabled && decide (0 < a + b))) = true
        then Pc.L100 else Pc.L92) ∧
    (run t (untilRead a b) s).is_user_event_detected =
      (s.is_user_event_detected || (s.irqEnabled && decide (0 < a + b))) ∧
    (run t (untilRead a b) s).irqEnabled = s.irqEnabled ∧
    mainCalls (run t (untilRead a b) s).log =
      mainCalls s.log ++
        [ Call.Cy_GPIO_Inv t.CYBSP_USER_LED_PORT t.CYBSP_USER_LED_PIN,
          Call.Cy_SysLib_Delay 100,
          Call.load (s.is_user_event_detected || (s.irqEnabled && decide (0 < a + b))) ] := by
  obtain ⟨pc, result, flag, en, log⟩ := s
  simp only at hpc
  subst hpc
  have hab : (decide (0 < a) || decide (0 < b)) = decide (0 < a + b) := by
    rw [Bool.eq_iff_iff]; simp
  unfold untilRead
  simp only [run_append, List.singleton_append, run_cons, run_nil, run_irq_general]
  cases flag <;> cases en <;>
    simp [step, mainStep, emit, mainCalls_append, mainCalls_snoc_main, mainCalls_handlerEvents,
      mainCalls_cons_main, mainCalls_nil, LED_TOGGLE_INTERVAL_MS, ← hab]

theorem run_clearAndCall (t : Target) (s : State) (c d : Nat) (last : Action)
    (hpc : s.pc = Pc.L100) (hlast : last ≠ Action.irq) :
    (run t (clearAndCall c d last) s).pc =
      (if last = Action.main then Pc.L92 else Pc.bootloader) ∧
    (run t (clearAndCall c d last) s).is_user_event_detected =
      (s.irqEnabled && decide (0 < d)) ∧
    (run t (clearAndCall c d last) s).irqEnabled = s.irqEnabled ∧
    mainCalls (run t (clearAndCall c d last) s).log =
      mainCalls s.log ++ [Call.store false, Call.Cy_DFU_ExecuteApp 0] := by
  obtain ⟨pc, result, flag, en, log⟩ := s
  simp only at hpc
  subst hpc
  unfold clearAndCall
  simp only [run_append, List.singleton_append, run_cons, run_nil, run_irq_general]
  cases last
  · cases en <;>
      simp [step, mainStep, emit, mainCalls_append, mainCalls_snoc_main,
        mainCalls_handlerEvents, mainCalls_cons_main, mainCalls_nil, BOOTLOADER_ID]
  · cases en <;>
      simp [step, mainStep, emit, mainCalls_append, mainCalls_snoc_main,
        mainCalls_handlerEvents, mainCalls_cons_main, mainCalls_nil, BOOTLOADER_ID]
  · exact absurd rfl hlast

theorem run_after_clear (t : Target) (s : State) (m n a b : Nat) (hpc : s.pc = Pc.L100) :
    (run t (clearAndCall 0 m Action.main ++ List.replicate n Action.irq ++ untilRead a b) s).pc =
      (if (s.irqEnabled && decide (0 < m + n + a + b)) = true then Pc.L100 else Pc.L92) ∧
    mainCalls
        (run t (clearAndCall 0 m Action.main ++ List.replicate n Action.irq ++ untilRead a b)
          s).log =
      mainCalls s.log ++
        [ Call.store false,
          Call.Cy_DFU_ExecuteApp 0,
          Call.Cy_GPIO_Inv t.CYBSP_USER_LED_PORT t.CYBSP_USER_LED_PIN,
          Call.Cy_SysLib_Delay 100,
          Call.load (s.irqEnabled && decide (0 < m + n + a + b)) ] := by
  obtain ⟨h1, h2, h3, h4⟩ := run_clearAndCall t s 0 m Action.main hpc (by simp)
  rw [run_append, run_append]
  have hp : (run t (List.replicate n Action.irq) (run t (clearAndCall 0 m Action.main) s)).pc
      = Pc.L92 := by
    rw [run_irq_general]; simpa using h1
  obtain ⟨g1, _, _, g4⟩ := run_untilRead t _ a b hp
  rw [g1, g4]
  simp only [run_irq_general, h1, h2, h3, h4, mainCalls_append, mainCalls_presses]
  have hb : ((s.irqEnabled && decide (0 < m) ||
      s.irqEnabled && decide (Pc.L92 ≠ Pc.bootloader) && decide (0 < n)) ||
      s.irqEnabled && decide (0 < a + b)) = (s.irqEnabled && decide (0 < m + n + a + b)) := by
    rw [Bool.eq_iff_iff]
    cases s.irqEnabled <;> simp
    omega
  simp only [if_true, hb]
  simp

/-! ## The claims -/

/-- C1, as stated, fails.  In `raceSchedule` the button is pressed once during the
delay and once more between the loop's read of the flag (line 98) and its clear
(line 100).  After the clear the flag is `false`, although one handler run has
happened since the loop's most recent read of the flag; it is still `false` with
that count when the handoff call has returned. -/
theorem C1_counterexample_race :
    ((run sampleTarget raceSchedule init).pc = Pc.L101 ∧
      (run sampleTarget raceSchedule init).is_user_event_detected = false ∧
      runsSinceRead (run sampleTarget raceSchedule init).log = 1) ∧
    ((run sampleTarget (raceSchedule ++ [Action.main]) init).pc = Pc.L92 ∧
      (run sampleTarget (raceSchedule ++ [Action.main]) init).is_user_event_detected = false ∧
      runsSinceRead (run sampleTarget (raceSchedule ++ [Action.main]) init).log = 1) ∧
    ¬ ((run sampleTarget raceSchedule init).is_user_event_detected = true ↔
        0 < runsSinceRead (run sampleTarget raceSchedule init).log) := by
  decide

/-- C1, amended: in every state reachable by any interleaving of `main` and the
handler, `is_user_event_detected` is true if and only if at least one handler run
has happened since the loop's most recent clear of the flag (line 100), or since
entry to `main` when the loop has not cleared it yet. -/
theorem C1_flag_iff_run_since_clear (t : Target) (acts : List Action) :
    ((run t acts init).is_user_event_detected = true ↔
      0 < runsSinceClear (run t acts init).log) :=
  flag_iff_run t acts

/-- C6: for every prior state, one run of `user_button_event_handler` appends
exactly three events to the log, in this order: `Cy_GPIO_ClearInterrupt` on the
user button pin, `NVIC_ClearPendingIRQ` for `user_button_intr_config.intrSrc`, and
the store `is_user_event_detected = true`; it ends with the flag true and changes
nothing else.  The handler is a total function: it cannot fail. -/
theorem C6_handler_three_effects (t : Target) (s : State) :
    user_button_event_handler t s =
      { s with
        is_user_event_detected := true
        log := s.log ++
          [ (Ctx.isr, Call.Cy_GPIO_ClearInterrupt t.CYBSP_USER_BTN_PORT t.CYBSP_USER_BTN_PIN),
            (Ctx.isr, Call.NVIC_ClearPendingIRQ (user_button_intr_config t).intrSrc),
            (Ctx.isr, Call.store true) ] } := by
  simp [user_button_event_handler, emit]

theorem run_pressedIteration (t : Target) (s : State) (a b : Nat) (last : Action)
    (hpc : s.pc = Pc.L92) (hflag : s.is_user_event_detected = false)
    (hen : s.irqEnabled = true) (hN : 1 ≤ a + b) (hlast : last ≠ Action.irq) :
    run t (pressedIteration a b last) s =
      { s with
        pc := if last = Action.main then Pc.L92 else Pc.bootloader
        log := s.log ++
          asMain [Call.Cy_GPIO_Inv t.CYBSP_USER_LED_PORT t.CYBSP_USER_LED_PIN] ++
          (List.replicate a (handlerEvents t)).flatten ++
          asMain [Call.Cy_SysLib_Delay 100] ++
          (List.replicate b (handlerEvents t)).flatten ++
          asMain [Call.load true, Call.store false, Call.Cy_DFU_ExecuteApp BOOTLOADER_ID] } := by
  obtain ⟨pc, result, flag, en, log⟩ := s
  simp only at hpc hflag hen
  subst hpc hflag hen
  have hab : (decide (0 < a) || decide (0 < b)) = true := by
    simp only [Bool.or_eq_true, decide_eq_true_eq]; omega
  unfold pressedIteration
  rw [run_append, run_append, run_append, run_append]
  have e1 : run t [Action.main] ⟨Pc.L92, result, false, true, log⟩ =
      ⟨Pc.L95, result, false, true,
        log ++ [(Ctx.main, Call.Cy_GPIO_Inv t.CYBSP_USER_LED_PORT t.CYBSP_USER_LED_PIN)]⟩ := by
    simp [run, step, mainStep, emit]
  rw [e1, run_irq_replicate t a _ rfl (by simp)]
  have e2 : ∀ f l, run t [Action.main] ⟨Pc.L95, result, f, true, l⟩ =
      ⟨Pc.L98, result, f, true, l ++ [(Ctx.main, Call.Cy_SysLib_Delay 100)]⟩ := by
    intro f l
    simp [run, step, mainStep, emit, LED_TOGGLE_INTERVAL_MS]
  rw [e2, run_irq_replicate t b _ rfl (by simp)]
  simp only [Bool.false_or, hab]
  cases last
  · simp [run, step, mainStep, emit, asMain]
  · simp [run, step, mainStep, emit, asMain]
  · exact absurd rfl hlast

/-- C2: for every `N = a + b ≥ 1`, starting at the head of a loop iteration with
the flag false, if the handler runs `N` times after the LED toggle and before the
loop reads the flag, and not again, then that iteration reads the flag as true,
clears it and calls `Cy_DFU_ExecuteApp(BOOTLOADER_ID)` exactly once, with
`BOOTLOADER_ID = 0`; whether the call returns or not, however `main` continues
afterwards (`later`), no further handoff call is made: the total is one. -/
theorem C2_presses_before_poll_one_handoff (t : Target) (s : State) (a b : Nat)
    (last : Action) (later : List Action)
    (hpc : s.pc = Pc.L92) (hflag : s.is_user_event_detected = false)
    (hen : s.irqEnabled = true) (hN : 1 ≤ a + b) (hlast : last ≠ Action.irq)
    (hlater : Action.irq ∉ later) :
    BOOTLOADER_ID = 0 ∧
    handlerRuns (run t (pressedIteration a b last) s).log = handlerRuns s.log + (a + b) ∧
    mainCalls (run t (pressedIteration a b last) s).log =
      mainCalls s.log ++
        [ Call.Cy_GPIO_Inv t.CYBSP_USER_LED_PORT t.CYBSP_USER_LED_PIN,
          Call.Cy_SysLib_Delay 100,
          Call.load true,
          Call.store false,
          Call.Cy_DFU_ExecuteApp 0 ] ∧
    handoffs (run t (pressedIteration a b last) s).log = handoffs s.log + 1 ∧
    handoffs (run t (pressedIteration a b last ++ later) s).log = handoffs s.log + 1 := by
  have hrun := run_pressedIteration t s a b last hpc hflag hen hN hlast
  have hq : Quiet (run t (pressedIteration a b last) s) := by
    rw [hrun]
    refine ⟨hflag, ?_, ?_⟩ <;> cases last <;> simp
  have hh : handoffs (run t (pressedIteration a b last) s).log = handoffs s.log + 1 := by
    rw [hrun]
    simp only [handoffs_append, handoffs_handlerEvents]
    simp [handoffs, asMain]
  refine ⟨rfl, ?_, ?_, hh, ?_⟩
  · rw [hrun]
    simp only [handlerRuns_append, handlerRuns_handlerEvents]
    simp [handlerRuns, asMain, List.count_cons]
    omega
  · rw [hrun]
    simp only [mainCalls_append, mainCalls_handlerEvents, mainCalls_asMain]
    simp [BOOTLOADER_ID]
  · rw [run_append, (quiet_run t later hlater _ hq).2, hh]

/-- Witness for C2: on the sample target, two presses during the delay of the
first loop iteration, a handoff call that returns, then one more iteration. -/
theorem C2_witness :
    (loopEntry.pc = Pc.L92 ∧ loopEntry.is_user_event_detected = false ∧
      loopEntry.irqEnabled = true ∧ 1 ≤ 1 + 1 ∧ Action.main ≠ Action.irq ∧
      Action.irq ∉ nextIteration) ∧
    handoffs (run sampleTarget (pressedIteration 1 1 Action.main ++ nextIteration) loopEntry).log
      = handoffs loopEntry.log + 1 :=
  ⟨by decide,
    (C2_presses_before_poll_one_handoff sampleTarget loopEntry 1 1 Action.main nextIteration
      (by decide) (by decide) (by decide) (by decide) (by decide) (by decide)).2.2.2.2⟩

theorem iter_shape (t : Target) (it : List Call) (h : it = iterQuiet t ∨ it = iterHandoff t) :
    it.head? = some (Call.Cy_GPIO_Inv t.CYBSP_USER_LED_PORT t.CYBSP_USER_LED_PIN) ∧
    it.count (Call.Cy_GPIO_Inv t.CYBSP_USER_LED_PORT t.CYBSP_USER_LED_PIN) = 1 := by
  rcases h with h | h <;> subst h <;> simp [iterQuiet, iterHandoff, List.count_cons]

theorem iterDone_shape (t : Target) (pc : Pc) :
    iterDone t pc <+: iterHandoff t ∧
    (iterDone t pc = [] ∨
      ((iterDone t pc).head? =
          some (Call.Cy_GPIO_Inv t.CYBSP_USER_LED_PORT t.CYBSP_USER_LED_PIN) ∧
        (iterDone t pc).count (Call.Cy_GPIO_Inv t.CYBSP_USER_LED_PORT t.CYBSP_USER_LED_PIN)
          = 1)) := by
  cases pc <;> simp [iterDone, iterHandoff, List.count_cons, List.take_prefix]

theorem loopShape_run (t : Target) (base : List Call) (acts : List Action) (s : State)
    (h : LoopShape t base s) : LoopShape t base (run t acts s) :=
  run_invariant t (LoopShape t base) (loopShape_step t base) acts s h

/-- C3: from the head of any loop iteration, whatever the value of the flag and
however the handler runs are interleaved:
(1) the calls that `main` makes form whole iterations followed by the part of the
current iteration executed so far; each whole iteration is `iterQuiet` (toggle,
delay, read false) or `iterHandoff` (toggle, delay, read true, clear, handoff
call), so `Cy_GPIO_Inv` on the user LED is its first call and occurs in it exactly
once;
(2) the statement at the head of the loop is that toggle: it is executed whatever
the flag holds;
(3) with `a` and `b` handler runs around the delay, the iteration makes the calls
toggle, delay, read, and the read returns the flag as set before or by those runs;
(4) when the read returns true, the iteration goes on, with `c` and `d` further
handler runs, to the clear and the handoff call: its calls are `iterHandoff`, the
toggle first;
(5) as long as every call returns, every statement that `main` executes adds one
call and `main` stays inside the loop. -/
theorem C3_toggle_first_once_per_iteration (t : Target) (s : State) (acts : List Action)
    (a b c d : Nat) (last : Action) (hpc : s.pc = Pc.L92) :
    (∃ full : List (List Call),
      mainCalls (run t acts s).log =
        mainCalls s.log ++ full.flatten ++ iterDone t (run t acts s).pc ∧
      (∀ it ∈ full,
        (it = iterQuiet t ∨ it = iterHandoff t) ∧
        it.head? = some (Call.Cy_GPIO_Inv t.CYBSP_USER_LED_PORT t.CYBSP_USER_LED_PIN) ∧
        it.count (Call.Cy_GPIO_Inv t.CYBSP_USER_LED_PORT t.CYBSP_USER_LED_PIN) = 1) ∧
      iterDone t (run t acts s).pc <+: iterHandoff t ∧
      (iterDone t (run t acts s).pc = [] ∨
        ((iterDone t (run t acts s).pc).head? =
            some (Call.Cy_GPIO_Inv t.CYBSP_USER_LED_PORT t.CYBSP_USER_LED_PIN) ∧
          (iterDone t (run t acts s).pc).count
            (Call.Cy_GPIO_Inv t.CYBSP_USER_LED_PORT t.CYBSP_USER_LED_PIN) = 1))) ∧
    step t Action.main s =
      { s with
        pc := Pc.L95
        log := s.log ++
          [(Ctx.main, Call.Cy_GPIO_Inv t.CYBSP_USER_LED_PORT t.CYBSP_USER_LED_PIN)] } ∧
    (run t (untilRead a b) s).pc =
      (if (s.is_user_event_detected || (s.irqEnabled && decide (0 < a + b))) = true
        then Pc.L100 else Pc.L92) ∧
    mainCalls (run t (untilRead a b) s).log =
      mainCalls s.log ++
        [ Call.Cy_GPIO_Inv t.CYBSP_USER_LED_PORT t.CYBSP_USER_LED_PIN,
          Call.Cy_SysLib_Delay 100,
          Call.load (s.is_user_event_detected || (s.irqEnabled && decide (0 < a + b))) ] ∧
    ((s.is_user_event_detected || (s.irqEnabled && decide (0 < a + b))) = true →
      last ≠ Action.irq →
      (run t (untilRead a b ++ clearAndCall c d last) s).pc =
        (if last = Action.main then Pc.L92 else Pc.bootloader) ∧
      mainCalls (run t (untilRead a b ++ clearAndCall c d last) s).log =
        mainCalls s.log ++
          [ Call.Cy_GPIO_Inv t.CYBSP_USER_LED_PORT t.CYBSP_USER_LED_PIN,
            Call.Cy_SysLib_Delay 100,
            Call.load true,
            Call.store false,
            Call.Cy_DFU_ExecuteApp 0 ]) ∧
    (Action.noreturn ∉ acts →
      Live (run t acts s) ∧
      (mainCalls (run t acts s).log).length =
        (mainCalls s.log).length + acts.count Action.main) := by
  have h0 : LoopShape t (mainCalls s.log) s :=
    ⟨by simp [hpc, inLoop], [], by simp, by simp [hpc, iterDone]⟩
  obtain ⟨_, full, hfull, hlog⟩ := loopShape_run t (mainCalls s.log) acts s h0
  obtain ⟨g1, _, _, g4⟩ := run_untilRead t s a b hpc
  refine ⟨⟨full, hlog, fun it hit => ⟨hfull it hit, iter_shape t it (hfull it hit)⟩,
    iterDone_shape t _⟩, ?_, g1, g4, ?_, fun hret => live_run t acts hret s (Or.inl hpc)⟩
  · obtain ⟨pc, result, flag, en, log⟩ := s
    have h2 : pc = Pc.L92 := hpc
    subst h2
    simp [step, mainStep, emit]
  · intro hf hlast
    have hp : (run t (untilRead a b) s).pc = Pc.L100 := by rw [g1, if_pos hf]
    obtain ⟨k1, _, _, k4⟩ := run_clearAndCall t _ c d last hp hlast
    rw [run_append]
    refine ⟨k1, ?_⟩
    rw [k4, g4, hf]
    simp

/-- Witness for C3: the first loop iteration on the sample target, with a button
press during the delay; the read returns true and the handoff call returns. -/
theorem C3_witness :
    (loopEntry.pc = Pc.L92 ∧
      (loopEntry.is_user_event_detected || (loopEntry.irqEnabled && decide (0 < 1 + 0))) = true ∧
      Action.main ≠ Action.irq ∧
      Action.noreturn ∉ pressedIteration 1 0 Action.main) ∧
    ((run sampleTarget (untilRead 1 0 ++ clearAndCall 0 0 Action.main) loopEntry).pc =
        (if Action.main = Action.main then Pc.L92 else Pc.bootloader) ∧
      mainCalls (run sampleTarget (untilRead 1 0 ++ clearAndCall 0 0 Action.main) loopEntry).log =
        mainCalls loopEntry.log ++
          [ Call.Cy_GPIO_Inv sampleTarget.CYBSP_USER_LED_PORT sampleTarget.CYBSP_USER_LED_PIN,
            Call.Cy_SysLib_Delay 100,
            Call.load true,
            Call.store false,
            Call.Cy_DFU_ExecuteApp 0 ]) ∧
    (Live (run sampleTarget (pressedIteration 1 0 Action.main) loopEntry) ∧
      (mainCalls (run sampleTarget (pressedIteration 1 0 Action.main) loopEntry).log).length =
        (mainCalls loopEntry.log).length + (pressedIteration 1 0 Action.main).count Action.main) :=
  ⟨by decide,
    (C3_toggle_first_once_per_iteration sampleTarget loopEntry
      (pressedIteration 1 0 Action.main) 1 0 0 0 Action.main (by decide)).2.2.2.2.1
      (by decide) (by decide),
    (C3_toggle_first_once_per_iteration sampleTarget loopEntry
      (pressedIteration 1 0 Action.main) 1 0 0 0 Action.main (by decide)).2.2.2.2.2
      (by decide)⟩

theorem blinking_step (t : Target) (a : Action) (s : State) (ha : a ≠ Action.irq)
    (hf : s.is_user_event_detected = false)
    (hpc : s.pc = Pc.L92 ∨ s.pc = Pc.L95 ∨ s.pc = Pc.L98) :
    (step t a s).is_user_event_detected = false ∧
      ((step t a s).pc = Pc.L92 ∨ (step t a s).pc = Pc.L95 ∨ (step t a s).pc = Pc.L98) := by
  obtain ⟨pc, result, flag, en, log⟩ := s
  simp only at hf hpc
  subst hf
  cases a
  · rcases hpc with h | h | h <;> subst h <;> simp [step, mainStep, emit]
  · rcases hpc with h | h | h <;> subst h <;> simp [step]
  · exact absurd rfl ha

theorem blinking_run (t : Target) (acts : List Action) (hno : Action.irq ∉ acts) (s : State)
    (hf : s.is_user_event_detected = false)
    (hpc : s.pc = Pc.L92 ∨ s.pc = Pc.L95 ∨ s.pc = Pc.L98) :
    (run t acts s).pc = Pc.L92 ∨ (run t acts s).pc = Pc.L95 ∨ (run t acts s).pc = Pc.L98 := by
  induction acts generalizing s with
  | nil => exact hpc
  | cons a acts ih =>
    have ha : a ≠ Action.irq := by
      intro h1; exact hno (by simp [h1])
    have hrest : Action.irq ∉ acts := by
      intro h1; exact hno (List.mem_cons_of_mem _ h1)
    obtain ⟨h1, h2⟩ := blinking_step t a s ha hf hpc
    exact ih hrest _ h1 h2

/-- C4, as stated, fails.  In `pressBeforeCall` the second button press falls
between the clear of the flag (line 100) and the handoff call (line 101).  The
call returns and the handler never runs after the return, yet the flag is true at
the return and the next iteration calls `Cy_DFU_ExecuteApp` again. -/
theorem C4_counterexample_press_before_call :
    (run sampleTarget pressBeforeCall init).pc = Pc.L92 ∧
    (run sampleTarget pressBeforeCall init).log.getLast? =
      some (Ctx.main, Call.Cy_DFU_ExecuteApp 0) ∧
    handoffs (run sampleTarget pressBeforeCall init).log = 1 ∧
    (run sampleTarget pressBeforeCall init).is_user_event_detected = true ∧
    Action.irq ∉ nextIteration ∧
    handoffs (run sampleTarget (pressBeforeCall ++ nextIteration) init).log = 2 := by
  decide

/-- C4, amended.  From the clear of the flag at line 100 of a handoff iteration:
(1) if the handler does not run after that clear and `Cy_DFU_ExecuteApp` returns,
then `main` is back at the head of the loop with the flag false; its next `3 * k`
statements are `k` iterations that toggle the LED, delay and read the flag as
false; and however long it continues (`later`), the flag stays false and no
further handoff call is made: `main` stays among the toggle, the delay and the
read (lines 92, 95, 98);
(2) whatever handler runs occur (`m` between the clear and the call, `n` after the
return, `a` and `b` around the delay), when `Cy_DFU_ExecuteApp` returns `main` goes
on to a next iteration that toggles the LED, delays and reads the flag, which is
true exactly when one of those runs happened;
(3) as long as every call returns, every statement that `main` executes adds one
call and `main` stays inside the loop: it does not terminate. -/
theorem C4_loop_resumes_after_return (t : Target) (s : State) (k : Nat)
    (later : List Action) (m n a b : Nat) (acts : List Action)
    (hpc : s.pc = Pc.L100) (hlater : Action.irq ∉ later) :
    run t [Action.main, Action.main] s =
      { s with
        pc := Pc.L92
        is_user_event_detected := false
        log := s.log ++ asMain [Call.store false, Call.Cy_DFU_ExecuteApp 0] } ∧
    run t ([Action.main, Action.main] ++ List.replicate (3 * k) Action.main) s =
      { s with
        pc := Pc.L92
        is_user_event_detected := false
        log := s.log ++ asMain [Call.store false, Call.Cy_DFU_ExecuteApp 0] ++
          asMain (List.replicate k (iterQuiet t)).flatten } ∧
    (run t ([Action.main, Action.main] ++ later) s).is_user_event_detected = false ∧
    ((run t ([Action.main, Action.main] ++ later) s).pc = Pc.L92 ∨
      (run t ([Action.main, Action.main] ++ later) s).pc = Pc.L95 ∨
      (run t ([Action.main, Action.main] ++ later) s).pc = Pc.L98) ∧
    handoffs (run t ([Action.main, Action.main] ++ later) s).log = handoffs s.log + 1 ∧
    (run t (clearAndCall 0 m Action.main ++ List.replicate n Action.irq ++ untilRead a b) s).pc =
      (if (s.irqEnabled && decide (0 < m + n + a + b)) = true then Pc.L100 else Pc.L92) ∧
    mainCalls
        (run t (clearAndCall 0 m Action.main ++ List.replicate n Action.irq ++ untilRead a b)
          s).log =
      mainCalls s.log ++
        [ Call.store false,
          Call.Cy_DFU_ExecuteApp 0,
          Call.Cy_GPIO_Inv t.CYBSP_USER_LED_PORT t.CYBSP_USER_LED_PIN,
          Call.Cy_SysLib_Delay 100,
          Call.load (s.irqEnabled && decide (0 < m + n + a + b)) ] ∧
    (Action.noreturn ∉ acts →
      Live (run t acts s) ∧
      (mainCalls (run t acts s).log).length =
        (mainCalls s.log).length + acts.count Action.main) := by
  obtain ⟨r1, r2⟩ := run_after_clear t s m n a b hpc
  have hlive : Action.noreturn ∉ acts →
      Live (run t acts s) ∧
      (mainCalls (run t acts s).log).length =
        (mainCalls s.log).length + acts.count Action.main :=
    fun hret => live_run t acts hret s (Or.inr (Or.inr (Or.inr (Or.inl hpc))))
  obtain ⟨pc, result, flag, en, log⟩ := s
  simp only at hpc
  subst hpc
  have e1 : run t [Action.main, Action.main] ⟨Pc.L100, result, flag, en, log⟩ =
      ⟨Pc.L92, result, false, en,
        log ++ asMain [Call.store false, Call.Cy_DFU_ExecuteApp 0]⟩ := by
    simp [run, step, mainStep, emit, asMain, BOOTLOADER_ID]
  have hq : Quiet (run t [Action.main, Action.main] ⟨Pc.L100, result, flag, en, log⟩) := by
    rw [e1]; exact ⟨rfl, by simp, by simp⟩
  obtain ⟨hq2, hh⟩ := quiet_run t later hlater _ hq
  refine ⟨e1, ?_, ?_, ?_, ?_, r1, r2, hlive⟩
  · rw [run_append, e1, run_quiet_iterations t k _ rfl rfl]
  · rw [run_append]; exact hq2.1
  · rw [run_append, e1]
    exact blinking_run t later hlater _ rfl (Or.inl rfl)
  · rw [run_append, hh, e1]
    simp [handoffs_append, handoffs, asMain]

/-- Witness for C4: on the sample target, from the clear at line 100 after one
button press.  Without a further press a quiet iteration follows the return of
the handoff call; with a press between the clear and the call the next iteration
toggles, delays and reads the flag as true. -/
theorem C4_witness :
    (beforeClear.pc = Pc.L100 ∧ Action.irq ∉ nextIteration ∧
      Action.noreturn ∉ nextIteration) ∧
    handoffs (run sampleTarget ([Action.main, Action.main] ++ nextIteration) beforeClear).log =
      handoffs beforeClear.log + 1 ∧
    mainCalls
        (run sampleTarget
          (clearAndCall 0 1 Action.main ++ List.replicate 0 Action.irq ++ untilRead 0 0)
          beforeClear).log =
      mainCalls beforeClear.log ++
        [ Call.store false,
          Call.Cy_DFU_ExecuteApp 0,
          Call.Cy_GPIO_Inv sampleTarget.CYBSP_USER_LED_PORT sampleTarget.CYBSP_USER_LED_PIN,
          Call.Cy_SysLib_Delay 100,
          Call.load (beforeClear.irqEnabled && decide (0 < 1 + 0 + 0 + 0)) ] ∧
    (Live (run sampleTarget nextIteration beforeClear) ∧
      (mainCalls (run sampleTarget nextIteration beforeClear).log).length =
        (mainCalls beforeClear.log).length + nextIteration.count Action.main) :=
  ⟨by decide,
    (C4_loop_resumes_after_return sampleTarget beforeClear 2 nextIteration 1 0 0 0
      nextIteration (by decide) (by decide)).2.2.2.2.1,
    (C4_loop_resumes_after_return sampleTarget beforeClear 2 nextIteration 1 0 0 0
      nextIteration (by decide) (by decide)).2.2.2.2.2.2.1,
    (C4_loop_resumes_after_return sampleTarget beforeClear 2 nextIteration 1 0 0 0
      nextIteration (by decide) (by decide)).2.2.2.2.2.2.2 (by decide)⟩

theorem externalCalls_iterQuiet (t : Target) (k : Nat) :
    externalCalls (List.replicate k (iterQuiet t)).flatten =
      (List.replicate k
        [ Call.Cy_GPIO_Inv t.CYBSP_USER_LED_PORT t.CYBSP_USER_LED_PIN,
          Call.Cy_SysLib_Delay 100 ]).flatten := by
  induction k with
  | zero => rfl
  | succ k ih =>
    simp only [externalCalls] at ih
    simp [List.replicate_succ, externalCalls, List.filter_append, ih, iterQuiet]

/-- C5: in every execution in which the handler never runs, the flag stays false
and `Cy_DFU_ExecuteApp` is never called; and when `cybsp_init` succeeds, for
every `k` the external calls of `main` up to the end of its `k`-th loop iteration
are the start-up calls followed by exactly `k` repetitions of `Cy_GPIO_Inv` on the
user LED and `Cy_SysLib_Delay(100)`, where `100 = LED_TOGGLE_INTERVAL_MS`. -/
theorem C5_no_press_blinks_forever (t : Target) (k : Nat) (acts : List Action)
    (hok : t.cybsp_init = t.CY_RSLT_SUCCESS) (hno : Action.irq ∉ acts) :
    (run t acts init).is_user_event_detected = false ∧
    handoffs (run t acts init).log = 0 ∧
    LED_TOGGLE_INTERVAL_MS = 100 ∧
    (run t (toLoop ++ List.replicate (3 * k) Action.main) init).pc = Pc.L92 ∧
    (run t (toLoop ++ List.replicate (3 * k) Action.main) init).log =
      asMain (startup t ++ (List.replicate k (iterQuiet t)).flatten) ∧
    externalCalls (mainCalls (run t (toLoop ++ List.replicate (3 * k) Action.main) init).log) =
      startup t ++
        (List.replicate k
          [ Call.Cy_GPIO_Inv t.CYBSP_USER_LED_PORT t.CYBSP_USER_LED_PIN,
            Call.Cy_SysLib_Delay 100 ]).flatten := by
  have hq0 : Quiet init := ⟨rfl, by simp [init], by simp [init]⟩
  obtain ⟨hq, hh⟩ := quiet_run t acts hno init hq0
  have hrun : run t (toLoop ++ List.replicate (3 * k) Action.main) init =
      { pc := Pc.L92, result := t.cybsp_init, is_user_event_detected := false,
        irqEnabled := true,
        log := asMain (startup t) ++ asMain (List.replicate k (iterQuiet t)).flatten } := by
    rw [run_append, run_toLoop t hok, run_quiet_iterations t k _ rfl rfl]
  refine ⟨hq.1, by rw [hh]; rfl, rfl, by rw [hrun], ?_, ?_⟩
  · rw [hrun]; simp [asMain]
  · rw [hrun]
    simp only [mainCalls_append, mainCalls_asMain]
    have := externalCalls_iterQuiet t k
    simp only [externalCalls] at this ⊢
    rw [List.filter_append, this]
    simp [startup]

/-- Witness for C5: four loop iterations on the sample target. -/
theorem C5_witness :
    (sampleTarget.cybsp_init = sampleTarget.CY_RSLT_SUCCESS ∧
      Action.irq ∉ toLoop ++ nextIteration) ∧
    externalCalls
        (mainCalls (run sampleTarget (toLoop ++ List.replicate (3 * 4) Action.main) init).log) =
      startup sampleTarget ++
        (List.replicate 4
          [ Call.Cy_GPIO_Inv sampleTarget.CYBSP_USER_LED_PORT sampleTarget.CYBSP_USER_LED_PIN,
            Call.Cy_SysLib_Delay 100 ]).flatten :=
  ⟨by decide,
    (C5_no_press_blinks_forever sampleTarget 4 (toLoop ++ nextIteration)
      (by decide) (by decide)).2.2.2.2.2⟩

/-- C7: if `cybsp_init` returns a result different from `CY_RSLT_SUCCESS`, then
after every schedule the only call that has been made is `cybsp_init` itself: no
`Cy_SysInt_Init`, `NVIC_EnableIRQ` or `__enable_irq`, no LED toggle and no handoff
call; the interrupt source stays disabled, `main` is at line 73, 74 or 76 or
halted, and once `main` has executed three statements it is halted for good. -/
theorem C7_failed_init_halts (t : Target) (acts : List Action)
    (hfail : t.cybsp_init ≠ t.CY_RSLT_SUCCESS) :
    ((run t acts init).log = [] ∨ (run t acts init).log = [(Ctx.main, Call.cybsp_init)]) ∧
    ((run t acts init).pc = Pc.L73 ∨ (run t acts init).pc = Pc.L74 ∨
      (run t acts init).pc = Pc.L76 ∨ (run t acts init).pc = Pc.halted) ∧
    (run t acts init).irqEnabled = false ∧
    iterationsStarted t (run t acts init).log = 0 ∧
    handoffs (run t acts init).log = 0 ∧
    (3 ≤ acts.count Action.main → (run t acts init).pc = Pc.halted) := by
  obtain ⟨⟨hen, _, hcases⟩, hrank⟩ := failing_run t hfail acts init (failing_init t)
  have hpc : (run t acts init).pc = Pc.L73 ∨ (run t acts init).pc = Pc.L74 ∨
      (run t acts init).pc = Pc.L76 ∨ (run t acts init).pc = Pc.halted := by
    rcases hcases with ⟨h, _⟩ | ⟨h, _⟩ | ⟨h | h, _⟩ <;> simp [h]
  have hlog : (run t acts init).log = [] ∨
      (run t acts init).log = [(Ctx.main, Call.cybsp_init)] := by
    rcases hcases with ⟨_, h⟩ | ⟨_, _, h⟩ | ⟨_, h⟩ <;> simp [h]
  refine ⟨hlog, hpc, hen, ?_, ?_, ?_⟩
  · rcases hlog with h | h <;> rw [h] <;> simp [iterationsStarted]
  · rcases hlog with h | h <;> rw [h] <;> simp [handoffs]
  · intro h3
    apply haltRank_three _ _ hpc
    rw [hrank]
    simp [init, haltRank]
    omega

/-- Witness for C7: on a target whose `cybsp_init` fails, `main` is halted after
three statements, whatever is attempted afterwards. -/
theorem C7_witness :
    (failingTarget.cybsp_init ≠ failingTarget.CY_RSLT_SUCCESS ∧
      3 ≤ (toLoop ++ [Action.irq, Action.main]).count Action.main) ∧
    (run failingTarget (toLoop ++ [Action.irq, Action.main]) init).pc = Pc.halted :=
  ⟨by decide,
    (C7_failed_init_halts failingTarget (toLoop ++ [Action.irq, Action.main])
      (by decide)).2.2.2.2.2 (by decide)⟩

theorem enabled_step (t : Target) (a : Action) (s : State) (h : EnabledAfter84 s) :
    EnabledAfter84 (step t a s) := by
  obtain ⟨pc, result, flag, en, log⟩ := s
  unfold EnabledAfter84 at h ⊢
  cases a
  · cases pc <;> simp [step, mainStep, emit, inLoop, CY_ASSERT] at h ⊢ <;>
      (try split_ifs) <;> simp_all [inLoop]
  · simp only [step]
    split
    · rename_i hpc
      have hpc2 : pc = Pc.L101 := hpc
      subst hpc2
      simp [mainStep, emit, inLoop] at h ⊢
      exact h
    · exact h
  · simp only [step]
    split
    · simpa [user_button_event_handler, emit] using h
    · exact h

theorem enabled_run (t : Target) (acts : List Action) : EnabledAfter84 (run t acts init) :=
  run_invariant t EnabledAfter84 (enabled_step t) acts init (by simp [EnabledAfter84, init, inLoop])

theorem startup_not_in_iteration (t : Target) (c : Call) (hc : c ∈ startup t)
    (it : List Call) (hit : it <+: iterHandoff t ∨ it = iterQuiet t) : c ∉ it := by
  have h1 : c ∉ iterHandoff t := by
    simp [startup] at hc
    rcases hc with h | h | h | h | h <;> subst h <;> simp [iterHandoff]
  have h2 : c ∉ iterQuiet t := by
    simp [startup] at hc
    rcases hc with h | h | h | h | h <;> subst h <;> simp [iterQuiet]
  rcases hit with h | h
  · exact fun hm => h1 (h.subset hm)
  · rw [h]; exact h2

theorem startup_count_one (t : Target) (c : Call) (hc : c ∈ startup t) :
    (startup t).count c = 1 := by
  simp [startup] at hc
  rcases hc with h | h | h | h | h <;> subst h <;> simp [startup, List.count_cons]

/-- C8: when `cybsp_init` succeeds, the six start-up statements of `main` lead to
the head of the loop having made exactly the calls `cybsp_init`, `Cy_SysInt_Init`
binding `user_button_event_handler` to source `CYBSP_USER_BTN_IRQ` at priority 3
(equal to `GPIO_INTERRUPT_PRIORITY`), `NVIC_ClearPendingIRQ` and `NVIC_EnableIRQ`
for that source, and `__enable_irq`, in this order.  In every later state the
calls of `main` are these start-up calls followed by loop iterations, each of
which is `iterQuiet` or `iterHandoff`; every start-up call occurs exactly once,
and the interrupt source is still enabled. -/
theorem C8_registration_once_before_loop (t : Target) (acts : List Action)
    (hok : t.cybsp_init = t.CY_RSLT_SUCCESS) (hloop : inLoop (run t acts init).pc = true) :
    user_button_intr_config t =
      { intrSrc := t.CYBSP_USER_BTN_IRQ, intrPriority := GPIO_INTERRUPT_PRIORITY } ∧
    GPIO_INTERRUPT_PRIORITY = 3 ∧
    (run t toLoop init).pc = Pc.L92 ∧
    mainCalls (run t toLoop init).log =
      [ Call.cybsp_init,
        Call.Cy_SysInt_Init (user_button_intr_config t) cy_israddress.user_button_event_handler,
        Call.NVIC_ClearPendingIRQ t.CYBSP_USER_BTN_IRQ,
        Call.NVIC_EnableIRQ t.CYBSP_USER_BTN_IRQ,
        Call.__enable_irq ] ∧
    (∃ full : List (List Call),
      mainCalls (run t acts init).log =
        startup t ++ full.flatten ++ iterDone t (run t acts init).pc ∧
      (∀ it ∈ full, it = iterQuiet t ∨ it = iterHandoff t)) ∧
    (∀ c ∈ startup t, (mainCalls (run t acts init).log).count c = 1) ∧
    (run t acts init).irqEnabled = true := by
  have hshape := shape_run t acts
  rcases hshape with ⟨_, _, full, hfull, hlog⟩ | ⟨hl, _⟩
  · refine ⟨rfl, rfl, by rw [run_toLoop t hok], ?_, ⟨full, hlog, hfull⟩, ?_,
      enabled_run t acts (Or.inr hloop)⟩
    · rw [run_toLoop t hok]
      simp only [mainCalls_asMain]
      rfl
    · intro c hc
      rw [hlog, List.count_append, List.count_append, startup_count_one t c hc]
      have h1 : List.count c full.flatten = 0 := by
        apply List.count_eq_zero_of_not_mem
        intro hm
        obtain ⟨it, hit, hcit⟩ := List.mem_flatten.1 hm
        rcases hfull it hit with h | h
        · exact startup_not_in_iteration t c hc it (Or.inr h) hcit
        · exact startup_not_in_iteration t c hc it (Or.inl (h ▸ List.prefix_refl _)) hcit
      have h2 : List.count c (iterDone t (run t acts init).pc) = 0 := by
        apply List.count_eq_zero_of_not_mem
        exact startup_not_in_iteration t c hc _ (Or.inl (iterDone_shape t _).1)
      rw [h1, h2]
  · rw [hl] at hloop
    exact absurd hloop (by simp)

/-- Witness for C8: on the sample target, after start-up and one loop iteration
with a button press. -/
theorem C8_witness :
    (sampleTarget.cybsp_init = sampleTarget.CY_RSLT_SUCCESS ∧
      inLoop (run sampleTarget (toLoop ++ pressedIteration 1 0 Action.main) init).pc = true) ∧
    ∀ c ∈ startup sampleTarget,
      (mainCalls (run sampleTarget (toLoop ++ pressedIteration 1 0 Action.main) init).log).count c
        = 1 :=
  ⟨by decide,
    (C8_registration_once_before_loop sampleTarget (toLoop ++ pressedIteration 1 0 Action.main)
      (by decide) (by decide)).2.2.2.2.2.1⟩

theorem flag_set_only_by_handler (t : Target) (a : Action) (s : State)
    (h0 : s.is_user_event_detected = false) (h1 : (step t a s).is_user_event_detected = true) :
    a = Action.irq ∧ step t a s = user_button_event_handler t s := by
  obtain ⟨pc, result, flag, en, log⟩ := s
  simp only at h0
  subst h0
  cases a
  · cases pc <;> simp [step, mainStep, emit] at h1
  · simp only [step] at h1
    split at h1
    · rename_i hpc
      have hpc2 : pc = Pc.L101 := hpc
      subst hpc2
      simp [mainStep, emit] at h1
    · simp at h1
  · refine ⟨rfl, ?_⟩
    simp only [step] at h1 ⊢
    split
    · rfl
    · rename_i hc
      simp [hc] at h1

theorem flag_cleared_only_at_line_100 (t : Target) (a : Action) (s : State)
    (h0 : s.is_user_event_detected = true) (h1 : (step t a s).is_user_event_detected = false) :
    a = Action.main ∧ s.pc = Pc.L100 ∧ (step t a s).pc = Pc.L101 ∧
      (step t a s).log = s.log ++ [(Ctx.main, Call.store false)] := by
  obtain ⟨pc, result, flag, en, log⟩ := s
  simp only at h0
  subst h0
  cases a
  · cases pc <;> simp [step, mainStep, emit] at h1 ⊢
  · simp only [step] at h1
    split at h1
    · rename_i hpc
      have hpc2 : pc = Pc.L101 := hpc
      subst hpc2
      simp [mainStep, emit] at h1
    · simp at h1
  · simp only [step] at h1
    split at h1
    · simp [user_button_event_handler, emit] at h1
    · simp at h1

theorem line_100_entered_by_read_true (t : Target) (a : Action) (s : State)
    (h0 : s.pc ≠ Pc.L100) (h1 : (step t a s).pc = Pc.L100) :
    a = Action.main ∧ s.pc = Pc.L98 ∧ s.is_user_event_detected = true ∧
      (step t a s).log = s.log ++ [(Ctx.main, Call.load true)] := by
  obtain ⟨pc, result, flag, en, log⟩ := s
  simp only at h0
  cases a
  · cases pc <;> simp [step, mainStep, emit, CY_ASSERT] at h0 h1 ⊢
    · split_ifs at h1
    · exact h1
  · simp only [step] at h1
    split at h1
    · rename_i hpc
      have hpc2 : pc = Pc.L101 := hpc
      subst hpc2
      simp [mainStep, emit] at h1
    · exact absurd h1 h0
  · simp only [step] at h1
    split at h1
    · exact absurd h1 h0
    · exact absurd h1 h0

theorem frame_toggle_delay_handoff (t : Target) (a : Action) (s : State)
    (hpc : s.pc = Pc.L92 ∨ s.pc = Pc.L95 ∨ s.pc = Pc.L101) (ha : a ≠ Action.irq) :
    (step t a s).is_user_event_detected = s.is_user_event_detected := by
  obtain ⟨pc, result, flag, en, log⟩ := s
  simp only at hpc
  cases a
  · rcases hpc with h | h | h <;> subst h <;> simp [step, mainStep, emit]
  · rcases hpc with h | h | h <;> subst h <;> simp [step, mainStep, emit]
  · exact absurd rfl ha

theorem last_call_before_clear (t : Target) (acts : List Action)
    (h : (run t acts init).pc = Pc.L100) :
    (mainCalls (run t acts init).log).getLast? = some (Call.load true) := by
  rcases shape_run t acts with ⟨_, _, full, _, hlog⟩ | ⟨hl, _⟩
  · rw [hlog, h]
    simp [iterDone, iterHandoff, List.getLast?_append]
  · rw [h] at hl
    simp [inLoop] at hl

/-- C9: `is_user_event_detected` is initially false.  A step that changes it from
false to true is a run of `user_button_event_handler`.  A step that changes it
from true to false is the statement of `main` at line 100, which stores `false`
and moves on to the handoff call at line 101.  Line 100 is entered only by the
read at line 98 returning true, and in every reachable state at line 100 the most
recent call of `main` is that read; at line 100 the next statement of `main` is
the clear, and at line 101 it is `Cy_DFU_ExecuteApp(BOOTLOADER_ID)`, which leaves
the flag unchanged, as do the LED toggle (line 92) and the delay (line 95). -/
theorem C9_flag_writers (t : Target) (a : Action) (s : State) (acts : List Action) :
    init.is_user_event_detected = false ∧
    (s.is_user_event_detected = false → (step t a s).is_user_event_detected = true →
      a = Action.irq ∧ step t a s = user_button_event_handler t s) ∧
    (s.is_user_event_detected = true → (step t a s).is_user_event_detected = false →
      a = Action.main ∧ s.pc = Pc.L100 ∧ (step t a s).pc = Pc.L101 ∧
        (step t a s).log = s.log ++ [(Ctx.main, Call.store false)]) ∧
    (s.pc ≠ Pc.L100 → (step t a s).pc = Pc.L100 →
      a = Action.main ∧ s.pc = Pc.L98 ∧ s.is_user_event_detected = true ∧
        (step t a s).log = s.log ++ [(Ctx.main, Call.load true)]) ∧
    ((run t acts init).pc = Pc.L100 →
      (mainCalls (run t acts init).log).getLast? = some (Call.load true)) ∧
    (s.pc = Pc.L100 →
      step t Action.main s =
        { s with pc := Pc.L101, is_user_event_detected := false,
                 log := s.log ++ [(Ctx.main, Call.store false)] }) ∧
    (s.pc = Pc.L101 →
      step t Action.main s =
        { s with pc := Pc.L92,
                 log := s.log ++ [(Ctx.main, Call.Cy_DFU_ExecuteApp BOOTLOADER_ID)] }) ∧
    ((s.pc = Pc.L92 ∨ s.pc = Pc.L95 ∨ s.pc = Pc.L101) → a ≠ Action.irq →
      (step t a s).is_user_event_detected = s.is_user_event_detected) := by
  refine ⟨rfl, flag_set_only_by_handler t a s, flag_cleared_only_at_line_100 t a s,
    line_100_entered_by_read_true t a s, last_call_before_clear t acts, ?_, ?_,
    frame_toggle_delay_handoff t a s⟩
  · intro h
    obtain ⟨pc, result, flag, en, log⟩ := s
    have h2 : pc = Pc.L100 := h
    subst h2
    simp [step, mainStep, emit]
  · intro h
    obtain ⟨pc, result, flag, en, log⟩ := s
    have h2 : pc = Pc.L101 := h
    subst h2
    simp [step, mainStep, emit]

/-- Witness for C9: the clear at line 100 on the sample target, after a button
press during the delay of the first iteration. -/
theorem C9_witness :
    (beforeClear.is_user_event_detected = true ∧
      (step sampleTarget Action.main beforeClear).is_user_event_detected = false) ∧
    (Action.main = Action.main ∧ beforeClear.pc = Pc.L100 ∧
      (step sampleTarget Action.main beforeClear).pc = Pc.L101 ∧
      (step sampleTarget Action.main beforeClear).log =
        beforeClear.log ++ [(Ctx.main, Call.store false)]) :=
  ⟨by decide,
    (C9_flag_writers sampleTarget Action.main beforeClear []).2.2.1 (by decide) (by decide)⟩

/-- C10, as stated, fails in its clause on consecutive handoff calls.  In
`pressBeforeCall ++ nextIteration` the log is `untilFirstCall`, a handoff call,
`betweenCalls`, and a second handoff call; `betweenCalls` contains no handler run,
because the press that causes the second call falls between the clear and the
first call. -/
theorem C10_counterexample_no_run_between_calls :
    (run sampleTarget (pressBeforeCall ++ nextIteration) init).log =
      untilFirstCall ++ [(Ctx.main, Call.Cy_DFU_ExecuteApp 0)] ++ betweenCalls ++
        [(Ctx.main, Call.Cy_DFU_ExecuteApp 0)] ∧
    handoffs untilFirstCall = 0 ∧
    handoffs betweenCalls = 0 ∧
    handlerRuns betweenCalls = 0 ∧
    (Ctx.isr, Call.store true) ∉ betweenCalls := by
  decide

/-- C10, amended: after every schedule, the number of `Cy_DFU_ExecuteApp` calls is
at most the number of handler runs and at most the number of loop iterations
started; every such call is made by `main` with argument 0; the number of clears
of the flag (line 100) equals the number of handoff calls, plus one while `main`
stands at line 101 between a clear and its call; and between any two clears of
the flag at least one handler run occurred. -/
theorem C10_handoffs_bounded (t : Target) (acts : List Action) :
    handoffs (run t acts init).log ≤ handlerRuns (run t acts init).log ∧
    handoffs (run t acts init).log ≤ iterationsStarted t (run t acts init).log ∧
    (∀ e ∈ (run t acts init).log, ∀ n, e.2 = Call.Cy_DFU_ExecuteApp n →
      e = (Ctx.main, Call.Cy_DFU_ExecuteApp 0)) ∧
    handoffs (run t acts init).log + (if (run t acts init).pc = Pc.L101 then 1 else 0) =
      clears (run t acts init).log ∧
    (∀ a m c, (run t acts init).log =
        a ++ (Ctx.main, Call.store false) :: (m ++ (Ctx.main, Call.store false) :: c) →
      (Ctx.isr, Call.store true) ∈ m) := by
  obtain ⟨h1, h2, h3, _⟩ := counts_run t acts
  refine ⟨?_, ?_, argsOk_run t acts, h2, (gaps_run t acts).1.1⟩
  · split_ifs at h1 h2 <;> omega
  · split_ifs at h2 h3 <;> omega

/-- Witness for C10: on the sample target the two clears of
`pressBeforeCall ++ nextIteration` have a handler run between them. -/
theorem C10_witness :
    (run sampleTarget (pressBeforeCall ++ nextIteration) init).log =
        (asMain (startup sampleTarget) ++ asMain [Call.Cy_GPIO_Inv 5 6] ++
            handlerEvents sampleTarget ++ asMain [Call.Cy_SysLib_Delay 100, Call.load true]) ++
          (Ctx.main, Call.store false) ::
            ((handlerEvents sampleTarget ++
                asMain [Call.Cy_DFU_ExecuteApp 0, Call.Cy_GPIO_Inv 5 6, Call.Cy_SysLib_Delay 100,
                  Call.load true]) ++
              (Ctx.main, Call.store false) :: [(Ctx.main, Call.Cy_DFU_ExecuteApp 0)]) ∧
    (Ctx.isr, Call.store true) ∈
      handlerEvents sampleTarget ++
        asMain [Call.Cy_DFU_ExecuteApp 0, Call.Cy_GPIO_Inv 5 6, Call.Cy_SysLib_Delay 100,
          Call.load true] :=
  ⟨by decide,
    (C10_handoffs_bounded sampleTarget (pressBeforeCall ++ nextIteration)).2.2.2.2
      (asMain (startup sampleTarget) ++ asMain [Call.Cy_GPIO_Inv 5 6] ++
        handlerEvents sampleTarget ++ asMain [Call.Cy_SysLib_Delay 100, Call.load true])
      (handlerEvents sampleTarget ++
        asMain [Call.Cy_DFU_ExecuteApp 0, Call.Cy_GPIO_Inv 5 6, Call.Cy_SysLib_Delay 100,
          Call.load true])
      [(Ctx.main, Call.Cy_DFU_ExecuteApp 0)]
      (by decide)⟩

end DfuBlinky
